import Mathlib

/-!
# go-simplerouter: the router of `simplerouter/router.go`

A shallow embedding of `router.go` and a verification of its dispatch
contract.  The file has three layers:

* `regexp`: the part of Go's `regexp` package the router calls
  (`MustCompile`, `FindStringSubmatch`, `SubexpNames`), for a documented
  fragment of the pattern language;
* `http`: the part of `net/http` and `context` the router touches (response
  recorder, `http.Error`, request, context values);
* `simplerouter`: `route`, `Router`, `New`, `add`, the verb wrappers,
  `ServeHTTP` and `GetParam`, translated from `router.go`.
-/

set_option autoImplicit false

/-! ## Go's `regexp`, as far as the router uses it -/

namespace regexp

/-- The Perl character classes `\d`, `\w`, `\s`. -/
inductive PerlClass where
  | digit
  | word
  | space
  deriving DecidableEq, Repr

/-- Parsed regular expression.  `bol` and `eol` are `^` and `$` without the
multi-line flag: beginning and end of the text. -/
inductive Re where
  | empty
  | lit (c : Char)
  | any
  | perl (cls : PerlClass) (neg : Bool)
  | bol
  | eol
  | cat (a b : Re)
  | alt (a b : Re)
  | star (a : Re) (greedy : Bool)
  | plus (a : Re) (greedy : Bool)
  | quest (a : Re) (greedy : Bool)
  | cap (idx : Nat) (a : Re)
  deriving DecidableEq, Repr

/-- ASCII letter or digit. -/
def isAlnum (c : Char) : Bool :=
  (48 ≤ c.toNat && c.toNat ≤ 57) || (65 ≤ c.toNat && c.toNat ≤ 90) ||
    (97 ≤ c.toNat && c.toNat ≤ 122)

/-- Membership in a Perl class: `\d` is `[0-9]`, `\w` is `[0-9A-Za-z_]`,
`\s` is `[\t\n\f\r ]`. -/
def PerlClass.test : PerlClass → Char → Bool
  | .digit, c => 48 ≤ c.toNat && c.toNat ≤ 57
  | .word, c => isAlnum c || c.toNat == 95
  | .space, c => c.toNat == 9 || c.toNat == 10 || c.toNat == 12 || c.toNat == 13 || c.toNat == 32

/-! ### Parsing

The parser reads the pattern one character at a time and keeps, like Go's
parser, a stack of the groups that are still open.  Operator precedence is
the one of the pattern language: repetition binds to the last piece,
concatenation binds tighter than `|`, and `|` extends to the enclosing
parenthesis or to the ends of the whole pattern. -/

/-- An open group (or the top level): the alternatives closed by `|` so far
and the pieces of the current concatenation, both most recent first. -/
structure Frame where
  cap : Option Nat
  alts : List Re
  seq : List Re
  deriving Repr

/-- Where the parser stands inside a multi-character token. -/
inductive Mode where
  | normal
  | esc
  | rep (lazyOk : Bool)
  | paren
  | parenQ
  | parenQP
  | name (cs : List Char)
  deriving Repr

/-- Parser state: `names` are the names of the capture groups opened so far,
in order of their opening parenthesis (`""` for an unnamed group). -/
structure PState where
  mode : Mode
  cur : Frame
  stack : List Frame
  names : List String
  deriving Repr

/-- Concatenation of pieces given most recent first. -/
def mkCat : List Re → Re
  | [] => .empty
  | [a] => a
  | a :: rest => .cat (mkCat rest) a

/-- Alternation of alternatives given most recent first. -/
def mkAlt : List Re → Re
  | [] => .empty
  | [a] => a
  | a :: rest => .alt (mkAlt rest) a

/-- The expression of a frame whose closing parenthesis (or the end of the
pattern) has been reached. -/
def Frame.close (f : Frame) : Re :=
  let body := mkAlt (mkCat f.seq :: f.alts)
  match f.cap with
  | some i => .cap i body
  | none => body

/-- What reading one character gives: the next state, a syntax error of the
pattern language (Go's `Compile` fails), or a construct of the pattern
language that lies outside the modelled fragment.  `error` is returned only
where Go's parser fails for certain; whatever is in doubt is
`unsupported`. -/
inductive Step where
  | next (st : PState)
  | error
  | unsupported

/-- Append a piece to the current concatenation. -/
def PState.push (st : PState) (a : Re) : PState :=
  { st with mode := .normal, cur := { st.cur with seq := a :: st.cur.seq } }

/-- Open a group: capturing (with its name, `""` when unnamed) or not. -/
def PState.openGroup (st : PState) (name : Option String) : PState :=
  match name with
  | some n =>
    { mode := .normal, cur := { cap := some (st.names.length + 1), alts := [], seq := [] },
      stack := st.cur :: st.stack, names := st.names ++ [n] }
  | none =>
    { mode := .normal, cur := { cap := none, alts := [], seq := [] },
      stack := st.cur :: st.stack, names := st.names }

/-- Apply a repetition operator to the last piece; a syntax error when there
is none, at the start of the pattern, of a group or of an alternative
(`missing argument to repetition operator`). -/
def PState.repeatLast (st : PState) (op : Re → Bool → Re) : Step :=
  match st.cur.seq with
  | [] => .error
  | a :: rest => .next { st with mode := .rep true, cur := { st.cur with seq := op a true :: rest } }

/-- Turn the repetition just read into its non-greedy form (`*?`, `+?`, `??`). -/
def PState.makeLazy (st : PState) : Step :=
  match st.cur.seq with
  | .star a _ :: rest => .next { st with mode := .rep false, cur := { st.cur with seq := .star a false :: rest } }
  | .plus a _ :: rest => .next { st with mode := .rep false, cur := { st.cur with seq := .plus a false :: rest } }
  | .quest a _ :: rest => .next { st with mode := .rep false, cur := { st.cur with seq := .quest a false :: rest } }
  | _ => .unsupported

/-- One character read outside a multi-character token.  `afterRep` tells
that the previous token was a repetition operator: a second one directly
after it is a syntax error (`invalid nested repetition operator`), and so is
a `)` that closes no group (`unexpected )`).  The characters `[` and `{`
start constructs outside the modelled fragment. -/
def stepNormal (st : PState) (afterRep : Bool) (c : Char) : Step :=
  if c = '\\' then .next { st with mode := .esc }
  else if c = '(' then .next { st with mode := .paren }
  else if c = ')' then
    match st.stack with
    | [] => .error
    | parent :: rest =>
      .next { mode := .normal, cur := { parent with seq := st.cur.close :: parent.seq },
              stack := rest, names := st.names }
  else if c = '|' then
    .next { st with mode := .normal,
                    cur := { st.cur with alts := mkCat st.cur.seq :: st.cur.alts, seq := [] } }
  else if c = '*' then (if afterRep then .error else st.repeatLast .star)
  else if c = '+' then (if afterRep then .error else st.repeatLast .plus)
  else if c = '?' then (if afterRep then .error else st.repeatLast .quest)
  else if c = '.' then .next (st.push .any)
  else if c = '^' then .next (st.push .bol)
  else if c = '$' then .next (st.push .eol)
  else if c = '[' ∨ c = '{' then .unsupported
  else .next (st.push (.lit c))

/-- A capture name is valid when it is non-empty and made of ASCII letters,
digits and `_`. -/
def isValidCaptureName (cs : List Char) : Bool :=
  !cs.isEmpty && cs.all (fun c => isAlnum c || c.toNat == 95)

/-- The name read between `(?P<` and `>`: a valid name opens a named group;
an empty name, or a name of ASCII characters one of which is not a letter, a
digit or `_`, is a syntax error (`invalid named capture`); a name with a
character outside ASCII is left outside the fragment. -/
def PState.openNamed (st : PState) (cs : List Char) : Step :=
  if isValidCaptureName cs then .next (st.openGroup (some (String.mk cs)))
  else if cs.all (fun c => c.toNat < 128) then .error
  else .unsupported

/-- One character of the pattern.  After a backslash, `d D w W s S` are the
Perl classes and an ASCII character that is not a letter or a digit stands
for itself; every other escape is outside the fragment.  After `(?` only
`:` and `P<name>` are in the fragment (flags are not). -/
def step (st : PState) (c : Char) : Step :=
  match st.mode with
  | .normal => stepNormal st false c
  | .rep lazyOk =>
    if c = '?' ∧ lazyOk = true then st.makeLazy else stepNormal st true c
  | .esc =>
    if c = 'd' then .next (st.push (.perl .digit false))
    else if c = 'D' then .next (st.push (.perl .digit true))
    else if c = 'w' then .next (st.push (.perl .word false))
    else if c = 'W' then .next (st.push (.perl .word true))
    else if c = 's' then .next (st.push (.perl .space false))
    else if c = 'S' then .next (st.push (.perl .space true))
    else if c.toNat < 128 ∧ isAlnum c = false then .next (st.push (.lit c))
    else .unsupported
  | .paren =>
    if c = '?' then .next { st with mode := .parenQ }
    else stepNormal (st.openGroup (some "")) false c
  | .parenQ =>
    if c = ':' then .next (st.openGroup none)
    else if c = 'P' then .next { st with mode := .parenQP }
    else .unsupported
  | .parenQP =>
    if c = '<' then .next { st with mode := .name [] } else .unsupported
  | .name cs =>
    if c = '>' then st.openNamed cs
    else .next { st with mode := .name (cs ++ [c]) }

/-- Read a whole pattern from the given state, stopping at the first
character that is refused. -/
def steps : PState → List Char → Step
  | st, [] => .next st
  | st, c :: cs =>
    match step st c with
    | .next st1 => steps st1 cs
    | .error => .error
    | .unsupported => .unsupported

/-- The state before the first character. -/
def PState.init : PState :=
  { mode := .normal, cur := { cap := none, alts := [], seq := [] }, stack := [], names := [] }

/-- The expression can match the empty string. -/
def Re.nullable : Re → Bool
  | .empty => true
  | .lit _ => false
  | .any => false
  | .perl _ _ => false
  | .bol => true
  | .eol => true
  | .cat a b => a.nullable && b.nullable
  | .alt a b => a.nullable || b.nullable
  | .star _ _ => true
  | .plus a _ => a.nullable
  | .quest _ _ => true
  | .cap _ a => a.nullable

/-- Some `*` or `+` of the expression has a body that can match the empty
string. -/
def Re.hasNullableLoop : Re → Bool
  | .empty => false
  | .lit _ => false
  | .any => false
  | .perl _ _ => false
  | .bol => false
  | .eol => false
  | .cat a b => a.hasNullableLoop || b.hasNullableLoop
  | .alt a b => a.hasNullableLoop || b.hasNullableLoop
  | .star a _ => a.nullable || a.hasNullableLoop
  | .plus a _ => a.nullable || a.hasNullableLoop
  | .quest a _ => a.hasNullableLoop
  | .cap _ a => a.hasNullableLoop

/-- What parsing a pattern gives: the expression and the names of its
capture groups, a syntax error, or a pattern outside the modelled
fragment. -/
inductive Parsed where
  | ok (re : Re) (names : List String)
  | error
  | unsupported

/-- Patterns longer than this are left outside the fragment: Go's limits on
nesting depth and program size are not modelled, and no pattern of the
fragment within this length reaches them. -/
def maxLength : Nat := 1000

/-- The expression read, once the end of the pattern is reached.  A loop
whose body can match the empty string is left outside the fragment: what Go
reports for the groups inside such a loop is not modelled. -/
def PState.finish (st : PState) : Parsed :=
  let re := st.cur.close
  if re.hasNullableLoop then .unsupported else .ok re st.names

/-- Parse a pattern.  At the end of the pattern an unfinished token (a
trailing backslash, an open `(`, `(?`, `(?P` or `(?P<name`) or a group that
was not closed (`missing closing )`) is a syntax error. -/
def parse (pattern : List Char) : Parsed :=
  if pattern.length > maxLength then .unsupported
  else
    match steps PState.init pattern with
    | .error => .error
    | .unsupported => .unsupported
    | .next st =>
      match st.mode, st.stack with
      | .normal, [] => st.finish
      | .rep _, [] => st.finish
      | _, _ => .error

/-! ### Matching

A backtracking matcher in continuation-passing style.  It explores the
alternatives in the order of the pattern language (leftmost-first: the first
alternative before the second, one more iteration before leaving a greedy
loop), which is the match Go's `regexp` reports. -/

/-- Capture registers: `(group, start, end)` offsets, most recent first. -/
abbrev Caps := List (Nat × Nat × Nat)

/-- What a successful match reports: its end offset and the captures. -/
abbrev Found := Nat × Caps

/-- A continuation: the rest of the match from an offset and the text that
remains there. -/
abbrev Cont := Nat → List Char → Caps → Option Found

/-- The first of two attempts that succeeds. -/
def first (a b : Option Found) : Option Found :=
  match a with
  | some r => some r
  | none => b

/-- The loop of `*`: a greedy loop tries one more iteration before leaving,
a non-greedy one leaves first.  `fuel` bounds the number of iterations and
is taken larger than the remaining text: the body of a loop of a parsed
pattern cannot match the empty string (`parse` leaves such loops outside the
fragment), so every iteration consumes a character and the bound is never
reached. -/
def loop (body : Nat → List Char → Caps → Cont → Option Found) (greedy : Bool) :
    Nat → Nat → List Char → Caps → Cont → Option Found
  | 0, pos, rest, caps, k => k pos rest caps
  | fuel + 1, pos, rest, caps, k =>
    let again := body pos rest caps (fun p r c => loop body greedy fuel p r c k)
    let leave := k pos rest caps
    if greedy then first again leave else first leave again

/-- Match `re` at offset `pos`, where `rest` is the text from `pos` on, then
continue with `k`. -/
def Re.run : Re → Nat → List Char → Caps → Cont → Option Found
  | .empty, pos, rest, caps, k => k pos rest caps
  | .lit c, pos, rest, caps, k =>
    match rest with
    | d :: tl => if d = c then k (pos + 1) tl caps else none
    | [] => none
  | .any, pos, rest, caps, k =>
    match rest with
    | d :: tl => if d = '\n' then none else k (pos + 1) tl caps
    | [] => none
  | .perl cls neg, pos, rest, caps, k =>
    match rest with
    | d :: tl => if cls.test d = !neg then k (pos + 1) tl caps else none
    | [] => none
  | .bol, pos, rest, caps, k => if pos = 0 then k pos rest caps else none
  | .eol, pos, rest, caps, k =>
    match rest with
    | [] => k pos rest caps
    | _ :: _ => none
  | .cat a b, pos, rest, caps, k =>
    Re.run a pos rest caps (fun p r c => Re.run b p r c k)
  | .alt a b, pos, rest, caps, k =>
    first (Re.run a pos rest caps k) (Re.run b pos rest caps k)
  | .star a greedy, pos, rest, caps, k =>
    loop (fun p r c k1 => Re.run a p r c k1) greedy (rest.length + 1) pos rest caps k
  | .plus a greedy, pos, rest, caps, k =>
    Re.run a pos rest caps (fun p r c =>
      loop (fun p1 r1 c1 k1 => Re.run a p1 r1 c1 k1) greedy (r.length + 1) p r c k)
  | .quest a greedy, pos, rest, caps, k =>
    if greedy then first (Re.run a pos rest caps k) (k pos rest caps)
    else first (k pos rest caps) (Re.run a pos rest caps k)
  | .cap idx a, pos, rest, caps, k =>
    Re.run a pos rest caps (fun p r c => k p r ((idx, pos, p) :: c))

/-- Unanchored search: the match starting at the smallest offset, tried from
`pos` on.  Returns start offset, end offset and captures. -/
def search (re : Re) : Nat → List Char → Option (Nat × Nat × Caps)
  | pos, [] =>
    match re.run pos [] [] (fun p _ c => some (p, c)) with
    | some (e, c) => some (pos, e, c)
    | none => none
  | pos, d :: tl =>
    match re.run pos (d :: tl) [] (fun p _ c => some (p, c)) with
    | some (e, c) => some (pos, e, c)
    | none => search re (pos + 1) tl

/-- The text between two offsets. -/
def slice (text : List Char) (s e : Nat) : String :=
  String.mk ((text.drop s).take (e - s))

/-- The text of capture group `i`: `""` when the group took no part in the
match. -/
def group (text : List Char) (caps : Caps) (i : Nat) : String :=
  match caps.lookup i with
  | some (s, e) => slice text s e
  | none => ""

/-- The result slice of `FindStringSubmatch` for a parsed expression with
`n` capture groups: empty (Go's nil) when there is no match, else the text
of the whole match followed by the text of each group. -/
def find (re : Re) (n : Nat) (s : String) : List String :=
  match search re 0 s.data with
  | none => []
  | some (b, e, caps) => slice s.data b e :: (List.range n).map (fun i => group s.data caps (i + 1))

/-- A compiled regular expression, seen through the two methods the router
calls.  `length_eq` is the contract of the library: a match reports one
string per capture group plus the whole match, and `SubexpNames` has one
name per capture group plus the empty name of the whole match. -/
structure Regexp where
  FindStringSubmatch : String → List String
  SubexpNames : List String
  length_eq : ∀ s, FindStringSubmatch s ≠ [] → (FindStringSubmatch s).length = SubexpNames.length

/-- What `regexp.Compile` gives: a compiled expression, a compile error, or
nothing the model can tell, for a pattern outside the modelled fragment. -/
inductive Compiled where
  | ok (re : Regexp)
  | error
  | unsupported

/-- The compiled expression, when there is one. -/
def Compiled.regexp? : Compiled → Option Regexp
  | .ok re => some re
  | .error => none
  | .unsupported => none

/-- Go's `regexp.Compile`, for the fragment of the pattern language made of
literals, `.`, `\d \D \w \W \s \S`, escaped punctuation, `^`, `$`, `|`,
`( )`, `(?: )`, `(?P<name> )` and the repetitions `* + ?` with their
non-greedy forms, applied to pieces that cannot match the empty string.
`error` is Go's compile error; a pattern that uses anything else of Go's
pattern language (character classes in brackets, counted repetition, flags,
other escapes, ...) is `unsupported`: the model says neither that it
compiles nor that it fails. -/
def Compile (expr : String) : Compiled :=
  match parse expr.data with
  | .error => .error
  | .unsupported => .unsupported
  | .ok re names =>
    .ok { FindStringSubmatch := find re names.length
          SubexpNames := "" :: names
          length_eq := fun s h => by
            unfold find at h ⊢
            cases hs : search re 0 s.data with
            | none => simp [hs] at h
            | some r => obtain ⟨b, e, caps⟩ := r; simp }

/-- Go's `regexp.MustCompile`: like `Compile`, but a compile error
(`error`) is a panic. -/
def MustCompile (str : String) : Compiled :=
  Compile str

end regexp

/-! ## `net/http` and `context`, as far as the router uses them -/

namespace http

/-- Go's `http.Header`, one value per key: the router and `http.Error` only
call `Set`, which replaces whatever was stored under the key. -/
abbrev Header := List (String × String)

/-- `h.Set(key, value)`. -/
def Header.Set (h : Header) (key value : String) : Header :=
  (key, value) :: h.filter (fun kv => kv.1 ≠ key)

/-- `h.Del(key)`. -/
def Header.Del (h : Header) (key : String) : Header :=
  h.filter (fun kv => kv.1 ≠ key)

/-- `h.Get(key)`: `none` when the key is absent. -/
def Header.Get (h : Header) (key : String) : Option String :=
  h.lookup key

/-- A response writer that records what is written to it, in the manner of
`httptest.ResponseRecorder`: the header map, whether the status line has
been written, the status code (200 until one is written) and the body.  The
recorder's guess of a `Content-Type` from the first bytes written is left
out: the header map holds what the router and the handlers set. -/
structure ResponseWriter where
  header : Header
  wroteHeader : Bool
  Code : Nat
  Body : String
  deriving DecidableEq, Repr

/-- `httptest.NewRecorder()`. -/
def NewRecorder : ResponseWriter :=
  { header := [], wroteHeader := false, Code := 200, Body := "" }

/-- `w.WriteHeader(code)`: only the first call sets the status. -/
def ResponseWriter.WriteHeader (w : ResponseWriter) (code : Nat) : ResponseWriter :=
  if w.wroteHeader then w else { w with wroteHeader := true, Code := code }

/-- `io.WriteString(w, s)`: writes status 200 first when none was written. -/
def ResponseWriter.Write (w : ResponseWriter) (s : String) : ResponseWriter :=
  let w1 := w.WriteHeader 200
  { w1 with Body := w1.Body ++ s }

/-- `http.StatusText(code)` for the codes the router uses. -/
def StatusText (code : Nat) : String :=
  if code = 200 then "OK"
  else if code = 404 then "Not Found"
  else if code = 405 then "Method Not Allowed"
  else ""

def StatusOK : Nat := 200
def StatusNotFound : Nat := 404
def StatusMethodNotAllowed : Nat := 405

def MethodGet : String := "GET"
def MethodHead : String := "HEAD"
def MethodPost : String := "POST"
def MethodPut : String := "PUT"
def MethodPatch : String := "PATCH"
def MethodDelete : String := "DELETE"
def MethodConnect : String := "CONNECT"
def MethodOptions : String := "OPTIONS"
def MethodTrace : String := "TRACE"

/-- `http.Error(w, error, code)`: it deletes the header `Content-Length`,
sets the plain-text content type and `X-Content-Type-Options`, writes the
status, and prints the message followed by a line feed (`fmt.Fprintln`). -/
def Error (w : ResponseWriter) (error : String) (code : Nat) : ResponseWriter :=
  let h0 := w.header.Del "Content-Length"
  let h1 := h0.Set "Content-Type" "text/plain; charset=utf-8"
  let h2 := h1.Set "X-Content-Type-Options" "nosniff"
  let w1 : ResponseWriter := { w with header := h2 }
  (w1.WriteHeader code).Write (error ++ "\n")

end http

namespace simplerouter

/-- The key type of `router.go`: `type contextKey string`. -/
abbrev contextKey := String

/-- The constant `paramsKey = contextKey("urlParams")`. -/
def paramsKey : contextKey := "urlParams"

/-- The ParameterSet, Go's `map[string]string`: at most one entry per key. -/
abbrev Params := List (String × String)

/-- The assignment `params[name] = value`. -/
def Params.set (params : Params) (name value : String) : Params :=
  (name, value) :: params.filter (fun kv => kv.1 ≠ name)

/-- The keys of the map. -/
def Params.keys (params : Params) : List String :=
  params.map Prod.fst

/-- A `context.Context`, restricted to the values stored under keys of type
`contextKey`, innermost first.  The type is unexported, so only this package
stores values there and each is a `map[string]string`; keys of other
packages never compare equal to `paramsKey` and are left out. -/
abbrev Context := List (contextKey × Params)

/-- `context.Background()`. -/
def Background : Context := []

/-- `context.WithValue(parent, key, val)`. -/
def WithValue (parent : Context) (key : contextKey) (val : Params) : Context :=
  (key, val) :: parent

/-- `ctx.Value(key)`: the innermost value stored under `key`, `none` (Go's
nil) when there is none. -/
def Context.Value (ctx : Context) (key : contextKey) : Option Params :=
  ctx.lookup key

/-- The part of `*http.Request` the router reads: method, `URL.Path` and
context. -/
structure Request where
  Method : String
  Path : String
  ctx : Context
  deriving DecidableEq, Repr

/-- `http.NewRequest(method, path, nil)`, for a method that is not empty and
a target that is a plain path, without query or escapes: the path is then
`URL.Path` as it stands. -/
def NewRequest (method path : String) : Request :=
  { Method := method, Path := path, ctx := Background }

/-- `r.Context()`. -/
def Request.Context (r : Request) : Context := r.ctx

/-- `r.WithContext(ctx)`. -/
def Request.WithContext (r : Request) (ctx : simplerouter.Context) : Request :=
  { r with ctx := ctx }

/-- Go's `http.HandlerFunc`: a handler acts on the response writer; `none`
stands for a handler that fails (panics), which is also what calling a nil
handler does. -/
abbrev HandlerFunc := http.ResponseWriter → Request → Option http.ResponseWriter

/-- The struct `route`. -/
structure route where
  method : String
  regex : regexp.Regexp
  fn : HandlerFunc

/-- The struct `Router`; a handler field that is nil is `none`. -/
structure Router where
  Routes : List route
  NotFoundHandler : Option HandlerFunc
  MethodNotAllowedHandler : Option HandlerFunc

/-- `New()`: the zero Router. -/
def New : Router :=
  { Routes := [], NotFoundHandler := none, MethodNotAllowedHandler := none }

/-- How a call that mutates the router ends: normally, or with a panic, in
both cases with the router as the call leaves it; `unmodelled` stands for a
call whose pattern is outside the modelled fragment of `regexp`, of which
the model says nothing (the router it carries is the one before the
call). -/
inductive Outcome where
  | ok (router : Router)
  | panic (router : Router)
  | unmodelled (router : Router)

/-- The router a call leaves behind. -/
def Outcome.router : Outcome → Router
  | .ok router => router
  | .panic router => router
  | .unmodelled router => router

/-- Whether the call panicked. -/
def Outcome.panicked : Outcome → Bool
  | .ok _ => false
  | .panic _ => true
  | .unmodelled _ => false

/-- `router.add(method, pattern, fn)`.  The arguments of `append` are
evaluated before `router.Routes` is assigned, so a panic of `MustCompile`
leaves the router as it was. -/
def Router.add (router : Router) (method pattern : String) (fn : HandlerFunc) : Outcome :=
  match regexp.MustCompile ("^" ++ pattern ++ "$") with
  | .error => .panic router
  | .unsupported => .unmodelled router
  | .ok re => .ok { router with Routes := router.Routes ++ [{ method := method, regex := re, fn := fn }] }

def Router.Head (router : Router) (pattern : String) (fn : HandlerFunc) : Outcome :=
  router.add http.MethodHead pattern fn

def Router.Connect (router : Router) (pattern : String) (fn : HandlerFunc) : Outcome :=
  router.add http.MethodConnect pattern fn

def Router.Options (router : Router) (pattern : String) (fn : HandlerFunc) : Outcome :=
  router.add http.MethodOptions pattern fn

def Router.Trace (router : Router) (pattern : String) (fn : HandlerFunc) : Outcome :=
  router.add http.MethodTrace pattern fn

def Router.Get (router : Router) (pattern : String) (fn : HandlerFunc) : Outcome :=
  router.add http.MethodGet pattern fn

def Router.Post (router : Router) (pattern : String) (fn : HandlerFunc) : Outcome :=
  router.add http.MethodPost pattern fn

def Router.Put (router : Router) (pattern : String) (fn : HandlerFunc) : Outcome :=
  router.add http.MethodPut pattern fn

def Router.Patch (router : Router) (pattern : String) (fn : HandlerFunc) : Outcome :=
  router.add http.MethodPatch pattern fn

def Router.Delete (router : Router) (pattern : String) (fn : HandlerFunc) : Outcome :=
  router.add http.MethodDelete pattern fn

/-- One thing `ServeHTTP` does to the response writer `w`. -/
inductive Action where
  | headerSet (key value : String)
  | httpError (error : String) (code : Nat)
  | call (fn : HandlerFunc) (r : Request)

/-- The effect of one action on the response writer; `none` when the handler
called fails. -/
def Action.perform : Action → http.ResponseWriter → Option http.ResponseWriter
  | .headerSet key value, w => some { w with header := w.header.Set key value }
  | .httpError error code, w => some (http.Error w error code)
  | .call fn r, w => fn w r

/-- The effect of a sequence of actions, in order. -/
def perform : List Action → http.ResponseWriter → Option http.ResponseWriter
  | [], w => some w
  | a :: rest, w =>
    match a.perform w with
    | none => none
    | some w1 => perform rest w1

/-- Lines 86-92 of `ServeHTTP`: the loop over `SubexpNames()`, given as
`(i, name)` pairs, that fills `params`; `submatches` is the slice `matches`
of the source.  `none` is the run-time panic of `matches[i]` with `i` out of
range. -/
def fill (submatches : List String) : List (Nat × String) → Params → Option Params
  | [], params => some params
  | (i, name) :: rest, params =>
    if i ≠ 0 ∧ name ≠ "" then
      match submatches[i]? with
      | none => none
      | some value => fill submatches rest (params.set name value)
    else fill submatches rest params

/-- How the loop over the routes ends: with the route to dispatch to and
its `params`, by running off the end of the list with the methods
accumulated in `allow`, or with a panic. -/
inductive Scan where
  | dispatch (rt : route) (params : Params)
  | fallthrough (allow : List String)
  | panic

/-- Lines 77-97 of `ServeHTTP`: the loop over `router.Routes`, with `allow`
as accumulated so far. -/
def scan (r : Request) : List route → List String → Scan
  | [], allow => .fallthrough allow
  | rt :: rest, allow =>
    let submatches := rt.regex.FindStringSubmatch r.Path
    if submatches.length > 0 then
      if r.Method ≠ rt.method then scan r rest (allow ++ [rt.method])
      else
        match fill submatches rt.regex.SubexpNames.enum [] with
        | none => .panic
        | some params => .dispatch rt params
    else scan r rest allow

/-- `router.ServeHTTP(w, r)`, as the sequence of actions it performs on `w`,
in program order; `none` when the router itself panics before acting. -/
def Router.ServeHTTP (router : Router) (r : Request) : Option (List Action) :=
  match scan r router.Routes [] with
  | .panic => none
  | .dispatch rt params =>
    some [.call rt.fn (r.WithContext (WithValue r.Context paramsKey params))]
  | .fallthrough allow =>
    if allow.length > 0 then
      some [.headerSet "Allow" (", ".intercalate allow),
        match router.MethodNotAllowedHandler with
        | none => .httpError (http.StatusText http.StatusMethodNotAllowed) http.StatusMethodNotAllowed
        | some h => .call h r]
    else
      some [match router.NotFoundHandler with
        | none => .httpError (http.StatusText http.StatusNotFound) http.StatusNotFound
        | some h => .call h r]

/-- The response writer after `router.ServeHTTP(w, r)` returns; `none` when
the call panics, in the router or in the handler it invokes. -/
def Router.serve (router : Router) (w : http.ResponseWriter) (r : Request) :
    Option http.ResponseWriter :=
  match router.ServeHTTP r with
  | none => none
  | some actions => perform actions w

/-- `GetParam(r, name)`.  The type assertion `.(map[string]string)` has no
comma-ok form: on a nil value it panics (`none`). -/
def GetParam (r : Request) (name : String) : Option (String × Bool) :=
  match r.Context.Value paramsKey with
  | none => none
  | some params =>
    match params.lookup name with
    | some param => some (param, true)
    | none => some ("", false)

end simplerouter

/-! ## Specification vocabulary -/

namespace simplerouter

/-- The pattern of the route matches the path: the test `len(matches) > 0`
of line 80. -/
def route.matchesPath (rt : route) (path : String) : Prop :=
  (rt.regex.FindStringSubmatch path).length > 0

instance (rt : route) (path : String) : Decidable (rt.matchesPath path) :=
  inferInstanceAs (Decidable ((rt.regex.FindStringSubmatch path).length > 0))

/-- The route serves the request: its pattern matches the path and its
method is the request's. -/
def route.serves (rt : route) (r : Request) : Prop :=
  rt.matchesPath r.Path ∧ rt.method = r.Method

instance (rt : route) (r : Request) : Decidable (rt.serves r) :=
  inferInstanceAs (Decidable (_ ∧ _))

/-- The first route, in registration order, that serves the request. -/
def Router.firstServing (router : Router) (r : Request) : Option route :=
  router.Routes.find? (fun rt => decide (rt.serves r))

/-- The methods of all routes whose pattern matches the path, in
registration order, duplicates kept. -/
def Router.allowed (router : Router) (path : String) : List String :=
  (router.Routes.filter (fun rt => decide (rt.matchesPath path))).map (fun rt => rt.method)

/-- The request a dispatched handler receives: the original one with
`params` attached to its context under `paramsKey`. -/
def Request.withParams (r : Request) (params : Params) : Request :=
  r.WithContext (WithValue r.Context paramsKey params)

/-- The names the loop of lines 88-92 assigns, in order: those at an index
other than 0 that are not empty. -/
def assigned (l : List (Nat × String)) : List String :=
  (l.filter (fun p => decide (p.1 ≠ 0 ∧ p.2 ≠ ""))).map Prod.snd

/-- The names of the named capture groups of a compiled pattern, in the
order of the groups. -/
def namedGroups (re : regexp.Regexp) : List String :=
  assigned re.SubexpNames.enum

/-- A handler that writes status 200 and a body, as the handlers of
`router_test.go` do. -/
def writes (body : String) : HandlerFunc :=
  fun w _ => some ((w.WriteHeader http.StatusOK).Write body)

end simplerouter

/-! ## Whole-path matching, the specification of anchoring -/

namespace regexp

/-- The continuation that accepts only at the end of the text. -/
def atEnd : Cont :=
  fun p rest caps => if rest.isEmpty then some (p, caps) else none

/-- The pattern, compiled on its own, matches the whole of the text: some
way of matching it starts at offset 0 and ends at the end of the text.
`false` when the pattern does not compile. -/
def matchesWhole (pattern text : String) : Bool :=
  match parse pattern.data with
  | .ok re _ => (re.run 0 text.data [] atEnd).isSome
  | .error => false
  | .unsupported => false

end regexp

/-! ## Routers of `router_test.go` and of the examples -/

namespace simplerouter

/-- The router of `TestDefaultMethodNotAllowed`: only `GET /ops`. -/
def opsRouter : Router :=
  (New.Get "/ops" (writes "ops")).router

/-- Three routes on the same path: `POST /get`, then two `GET /get`. -/
def shadowRouter : Router :=
  (((New.Post "/get" (writes "post")).router.Get "/get" (writes "first")).router.Get "/get"
    (writes "second")).router

/-- The router of `TestCustomNotFound`. -/
def customNotFoundRouter : Router :=
  { New with NotFoundHandler := some (writes "custom") }

/-- The router of `TestCustomtMethodNotAllowed`. -/
def customMethodNotAllowedRouter : Router :=
  (Router.Get { New with MethodNotAllowedHandler := some (writes "custom") } "/ops"
    (writes "ops")).router

/-- A router whose only route has an alternation at the top level of its
pattern. -/
def eitherRouter : Router :=
  (New.Get "/a|/b" (writes "either")).router

/-- The handler of `TestGetValidParams`, with the two values written side by
side instead of JSON-encoded: a value is written only when `GetParam` finds
it. -/
def showParams (first second : String) : HandlerFunc :=
  fun w r =>
    match GetParam r first, GetParam r second with
    | some (a, oka), some (b, okb) =>
      some ((w.WriteHeader http.StatusOK).Write
        ((if oka then first ++ "=" ++ a else "") ++ ";" ++ (if okb then second ++ "=" ++ b else "")))
    | _, _ => none

/-- The router of `TestGetValidParams` and `TestGetInvalidParams`. -/
def paramsRouter : Router :=
  (New.Get "/get/(?P<param1>\\d+)/(?P<param2>\\w+)" (writes "params")).router

end simplerouter

/-! ## Resolutions, and the helpers of the tests -/

namespace simplerouter

/-- How `ServeHTTP` resolves a request: dispatch to a route with its params,
the 405 resolution with the methods accumulated in `allow`, or the 404
resolution. -/
inductive Resolution where
  | dispatched (rt : route) (params : Params)
  | methodNotAllowed (allow : List String)
  | notFound

/-- The resolution `ServeHTTP` reaches: the end of its loop, and the test
`len(allow) > 0` of line 99.  `none` when the loop panics. -/
def Router.resolve (router : Router) (r : Request) : Option Resolution :=
  match scan r router.Routes [] with
  | .panic => none
  | .dispatch rt params => some (.dispatched rt params)
  | .fallthrough allow =>
    if allow.length > 0 then some (.methodNotAllowed allow) else some .notFound

/-- What a handler does to the router while it serves a request.  A Go
handler is a closure: it may hold the router and call its registration
methods, or assign its handler fields.  `effect fn r router` is the router
after the handler `fn` has served the request `r`. -/
abbrev Effect := HandlerFunc → Request → Router → Router

/-- What one action of `ServeHTTP` does to the router: `Header().Set` and
`http.Error` belong to the library and cannot reach the router, a call of a
handler does to it what the handler does. -/
def Action.touch (effect : Effect) : Action → Router → Router
  | .headerSet _ _, router => router
  | .httpError _ _, router => router
  | .call fn r, router => effect fn r router

/-- One call `router.ServeHTTP(w, r)` as a transition of the router and the
response writer together: the router after the call is the router after the
actions of `ServeHTTP`, in order. -/
def Router.handle (effect : Effect) (router : Router) (w : http.ResponseWriter) (r : Request) :
    Router × Option http.ResponseWriter :=
  match router.ServeHTTP r with
  | none => (router, none)
  | some actions => (actions.foldl (fun rt a => a.touch effect rt) router, perform actions w)

/-- A handler effect: serving `/grow` registers the route `GET /new`, serving
any other path leaves the router alone. -/
def growEffect : Effect :=
  fun _ r router => if r.Path = "/grow" then (router.Get "/new" (writes "new")).router else router

/-- A router with the routes `GET /grow` and `GET /get`. -/
def growRouter : Router :=
  ((New.Get "/grow" (writes "grow")).router.Get "/get" (writes "get")).router

/-- Go's `unicode.IsSpace`. -/
def isSpace (c : Char) : Bool :=
  c.toNat == 9 || c.toNat == 10 || c.toNat == 11 || c.toNat == 12 || c.toNat == 13 ||
    c.toNat == 32 || c.toNat == 0x85 || c.toNat == 0xA0 || c.toNat == 0x1680 ||
    (0x2000 ≤ c.toNat && c.toNat ≤ 0x200A) || c.toNat == 0x2028 || c.toNat == 0x2029 ||
    c.toNat == 0x202F || c.toNat == 0x205F || c.toNat == 0x3000

/-- Go's `strings.TrimSpace`: the string without its leading and trailing
white space. -/
def TrimSpace (s : String) : String :=
  String.mk ((s.data.dropWhile isSpace).reverse.dropWhile isSpace).reverse

/-- The comparison of `check` in `router_test.go`: status equal, and body
equal once both sides are trimmed. -/
def check (rr : http.ResponseWriter) (status : Nat) (body : String) : Bool :=
  decide (rr.Code = status) && decide (TrimSpace rr.Body = TrimSpace body)

/-- The nine verb wrappers, each with the method token it stands for. -/
def wrappers : List ((Router → String → HandlerFunc → Outcome) × String) :=
  [(Router.Get, "GET"), (Router.Post, "POST"), (Router.Put, "PUT"), (Router.Patch, "PATCH"),
   (Router.Delete, "DELETE"), (Router.Head, "HEAD"), (Router.Options, "OPTIONS"),
   (Router.Connect, "CONNECT"), (Router.Trace, "TRACE")]

/-- A route whose named group is optional: on the path `/a` the group takes
no part in the match. -/
def optionalRouter : Router :=
  (New.Get "/a(?P<x>b)?" (writes "optional")).router

/-- A route with two groups of the same name. -/
def duplicateRouter : Router :=
  (New.Get "/(?P<x>a)(?P<x>b)" (writes "duplicate")).router

/-- A route with two groups of the same name, the first of them optional:
on the path `/b` the first takes no part in the match. -/
def overwrittenRouter : Router :=
  (New.Get "/(?P<x>a)?(?P<x>b)" (writes "overwritten")).router

end simplerouter

/-! ## A compiled pattern, from its optional form -/

namespace regexp

theorem Compiled.eq_ok_of_regexp? (c : Compiled) (re : Regexp) (h : c.regexp? = some re) :
    c = Compiled.ok re := by
  cases c with
  | ok re1 =>
    simp only [Compiled.regexp?, Option.some.injEq] at h
    rw [h]
  | error => simp [Compiled.regexp?] at h
  | unsupported => simp [Compiled.regexp?] at h

end regexp

/-! ## Lemmas on the loops of `ServeHTTP` -/

namespace simplerouter

theorem fill_total (ms : List String) :
    ∀ (l : List (Nat × String)) (params : Params), (∀ p ∈ l, p.1 < ms.length) →
      ∃ q, fill ms l params = some q := by
  intro l
  induction l with
  | nil => intro params _; exact ⟨params, rfl⟩
  | cons p rest ih =>
    intro params h
    obtain ⟨i, name⟩ := p
    have hi : i < ms.length := h (i, name) (List.mem_cons_self _ _)
    have hrest : ∀ p ∈ rest, p.1 < ms.length := fun p hp => h p (List.mem_cons_of_mem _ hp)
    unfold fill
    split
    · rw [List.getElem?_eq_getElem hi]
      exact ih _ hrest
    · exact ih _ hrest

theorem enum_fst_lt (names : List String) : ∀ p ∈ names.enum, p.1 < names.length := by
  intro p hp
  obtain ⟨i, name⟩ := p
  exact (List.mk_mem_enum_iff_getElem?.mp hp |> fun h => (List.getElem?_eq_some_iff.mp h).1)

/-- On a route whose pattern matched, the loop that fills `params` runs to
its end: every index of `SubexpNames()` is in bounds of `matches`. -/
theorem fill_names_total (rt : route) (path : String) (h : rt.matchesPath path) :
    ∃ q, fill (rt.regex.FindStringSubmatch path) rt.regex.SubexpNames.enum [] = some q := by
  apply fill_total
  have hne : rt.regex.FindStringSubmatch path ≠ [] := by
    intro h0
    unfold route.matchesPath at h
    rw [h0] at h
    exact absurd h (by simp)
  rw [rt.regex.length_eq path hne]
  exact enum_fst_lt _

theorem scan_of_find_some (r : Request) :
    ∀ (routes : List route) (allow : List String) (rt : route),
      routes.find? (fun x => decide (x.serves r)) = some rt →
      scan r routes allow =
        match fill (rt.regex.FindStringSubmatch r.Path) rt.regex.SubexpNames.enum [] with
        | none => .panic
        | some params => .dispatch rt params := by
  intro routes
  induction routes with
  | nil => intro allow rt h; simp at h
  | cons x rest ih =>
    intro allow rt h
    rw [List.find?_cons] at h
    by_cases hx : x.serves r
    · simp only [hx, decide_True] at h
      cases h
      obtain ⟨hm, he⟩ := hx
      unfold route.matchesPath at hm
      simp only [scan, hm, if_true, he, ne_eq, not_true_eq_false, if_false]
    · simp only [hx, decide_False] at h
      unfold scan
      by_cases hm : (x.regex.FindStringSubmatch r.Path).length > 0
      · have hne : r.Method ≠ x.method := fun he => hx ⟨hm, he.symm⟩
        simp only [hm, if_true, hne, ne_eq, not_false_eq_true]
        exact ih _ rt h
      · simp only [hm, if_false]
        exact ih _ rt h

theorem scan_of_find_none (r : Request) :
    ∀ (routes : List route) (allow : List String),
      routes.find? (fun x => decide (x.serves r)) = none →
      scan r routes allow = .fallthrough
        (allow ++ (routes.filter (fun rt => decide (rt.matchesPath r.Path))).map (fun rt => rt.method)) := by
  intro routes
  induction routes with
  | nil => intro allow _; simp [scan]
  | cons x rest ih =>
    intro allow h
    rw [List.find?_cons] at h
    by_cases hx : x.serves r
    · simp [hx] at h
    · simp only [hx, decide_False] at h
      unfold scan
      by_cases hm : (x.regex.FindStringSubmatch r.Path).length > 0
      · have hne : r.Method ≠ x.method := fun he => hx ⟨hm, he.symm⟩
        have hp : x.matchesPath r.Path := hm
        simp only [hm, if_true, hne, ne_eq, not_false_eq_true]
        rw [ih _ h]
        simp [List.filter_cons, hp]
      · have hp : ¬ x.matchesPath r.Path := hm
        simp only [hm, if_false]
        rw [ih _ h]
        simp [List.filter_cons, hp]

end simplerouter

/-! ## Dispatch: the three resolutions of a request -/

namespace simplerouter

theorem firstServing_of_exists (router : Router) (r : Request)
    (h : ∃ rt ∈ router.Routes, rt.matchesPath r.Path ∧ rt.method = r.Method) :
    ∃ rt, router.firstServing r = some rt := by
  obtain ⟨rt, hmem, hs⟩ := h
  have hsome : (router.Routes.find? (fun x => decide (x.serves r))).isSome := by
    rw [List.find?_isSome]
    exact ⟨rt, hmem, by simpa [route.serves] using hs⟩
  exact Option.isSome_iff_exists.mp hsome

theorem firstServing_none (router : Router) (r : Request)
    (h : ∀ rt ∈ router.Routes, rt.matchesPath r.Path → rt.method ≠ r.Method) :
    router.Routes.find? (fun x => decide (x.serves r)) = none := by
  rw [List.find?_eq_none]
  intro x hx hs
  have hs1 : x.serves r := of_decide_eq_true hs
  exact h x hx hs1.1 hs1.2

theorem allowed_ne_nil (router : Router) (path : String)
    (h : ∃ rt ∈ router.Routes, rt.matchesPath path) : router.allowed path ≠ [] := by
  obtain ⟨rt, hmem, hp⟩ := h
  intro h0
  have hm : rt.method ∈ router.allowed path := by
    unfold Router.allowed
    exact List.mem_map.mpr ⟨rt, List.mem_filter.mpr ⟨hmem, by simpa using hp⟩, rfl⟩
  rw [h0] at hm
  exact absurd hm (List.not_mem_nil _)

theorem allowed_eq_nil (router : Router) (path : String)
    (h : ∀ rt ∈ router.Routes, ¬ rt.matchesPath path) : router.allowed path = [] := by
  unfold Router.allowed
  rw [List.map_eq_nil_iff, List.filter_eq_nil_iff]
  intro rt hmem
  simpa using h rt hmem

/-- The 405 resolution, whatever `MethodNotAllowedHandler` is. -/
theorem ServeHTTP_of_wrong_method (router : Router) (r : Request)
    (hpath : ∃ rt ∈ router.Routes, rt.matchesPath r.Path)
    (hmeth : ∀ rt ∈ router.Routes, rt.matchesPath r.Path → rt.method ≠ r.Method) :
    router.ServeHTTP r = some
      [Action.headerSet "Allow" (", ".intercalate (router.allowed r.Path)),
        match router.MethodNotAllowedHandler with
        | none => Action.httpError "Method Not Allowed" 405
        | some h => Action.call h r] := by
  have hscan := scan_of_find_none r router.Routes [] (firstServing_none router r hmeth)
  have hne := allowed_ne_nil router r.Path hpath
  have hlen : (router.allowed r.Path).length > 0 := List.length_pos.mpr hne
  unfold Router.ServeHTTP
  rw [hscan]
  simp only [List.nil_append]
  change (if (router.allowed r.Path).length > 0 then _ else _) = _
  rw [if_pos hlen]
  rfl

/-- The 404 resolution, whatever `NotFoundHandler` is. -/
theorem ServeHTTP_of_no_path (router : Router) (r : Request)
    (h : ∀ rt ∈ router.Routes, ¬ rt.matchesPath r.Path) :
    router.ServeHTTP r = some
      [match router.NotFoundHandler with
        | none => Action.httpError "Not Found" 404
        | some h => Action.call h r] := by
  have hnone : router.Routes.find? (fun x => decide (x.serves r)) = none :=
    firstServing_none router r (fun rt hmem hp => absurd hp (h rt hmem))
  have hscan := scan_of_find_none r router.Routes [] hnone
  have hnil := allowed_eq_nil router r.Path h
  unfold Router.ServeHTTP
  rw [hscan]
  simp only [List.nil_append]
  change (if (router.allowed r.Path).length > 0 then _ else _) = _
  rw [hnil]
  rfl

theorem header_get_set_self (h : http.Header) (key value : String) :
    (h.Set key value).Get key = some value := by
  simp [http.Header.Set, http.Header.Get, List.lookup]

theorem header_get_set_other (h : http.Header) (key other value : String) (hne : other ≠ key) :
    (h.Set key value).Get other = h.Get other := by
  unfold http.Header.Set http.Header.Get
  have h1 : (other == key) = false := by simpa using hne
  rw [List.lookup_cons, h1]
  induction h with
  | nil => rfl
  | cons kv rest ih =>
    obtain ⟨k, v⟩ := kv
    by_cases hk : k = key
    · subst hk
      simp only [List.filter_cons, ne_eq, not_true_eq_false, decide_False, List.lookup_cons, h1]
      simpa using ih
    · simp only [List.filter_cons, ne_eq, hk, not_false_eq_true, decide_True, List.lookup_cons]
      simp only [if_true]
      rw [List.lookup_cons]
      split <;> simp_all

theorem header_get_del_other (h : http.Header) (key other : String) (hne : other ≠ key) :
    (h.Del key).Get other = h.Get other := by
  unfold http.Header.Del http.Header.Get
  induction h with
  | nil => rfl
  | cons kv rest ih =>
    obtain ⟨k, v⟩ := kv
    by_cases hk : k = key
    · subst hk
      have h1 : (other == k) = false := by simpa using hne
      simp only [List.filter_cons, ne_eq, not_true_eq_false, decide_False, List.lookup_cons, h1]
      simpa using ih
    · simp only [List.filter_cons, ne_eq, hk, not_false_eq_true, decide_True, List.lookup_cons]
      simp only [if_true]
      rw [List.lookup_cons]
      split <;> simp_all

/-- What `http.Error` leaves on a writer whose status was not yet written. -/
theorem Error_spec (w : http.ResponseWriter) (error : String) (code : Nat)
    (hw : w.wroteHeader = false) :
    (http.Error w error code).Code = code ∧
    (http.Error w error code).Body = w.Body ++ (error ++ "\n") ∧
    (http.Error w error code).header.Get "Allow" = w.header.Get "Allow" := by
  refine ⟨?_, ?_, ?_⟩
  · simp [http.Error, http.ResponseWriter.WriteHeader, http.ResponseWriter.Write, hw]
  · simp [http.Error, http.ResponseWriter.WriteHeader, http.ResponseWriter.Write, hw]
  · have h1 : (http.Error w error code).header =
        ((w.header.Del "Content-Length").Set "Content-Type" "text/plain; charset=utf-8").Set
          "X-Content-Type-Options" "nosniff" := by
      simp [http.Error, http.ResponseWriter.WriteHeader, http.ResponseWriter.Write, hw]
    rw [h1, header_get_set_other _ _ _ _ (by decide), header_get_set_other _ _ _ _ (by decide),
      header_get_del_other _ _ _ (by decide)]

end simplerouter

/-! ## Lemmas on `params` and `GetParam` -/

namespace simplerouter

theorem mem_namedGroups (re : regexp.Regexp) (name : String) :
    name ∈ namedGroups re ↔ ∃ i, 0 < i ∧ re.SubexpNames[i]? = some name ∧ name ≠ "" := by
  unfold namedGroups assigned
  constructor
  · intro h
    obtain ⟨p, hp, hname⟩ := List.mem_map.mp h
    obtain ⟨i, n⟩ := p
    obtain ⟨hmem, hcond⟩ := List.mem_filter.mp hp
    have hc : i ≠ 0 ∧ n ≠ "" := of_decide_eq_true hcond
    simp only at hname
    subst hname
    exact ⟨i, Nat.pos_of_ne_zero hc.1, List.mk_mem_enum_iff_getElem?.mp hmem, hc.2⟩
  · rintro ⟨i, hi, hget, hne⟩
    refine List.mem_map.mpr ⟨(i, name), List.mem_filter.mpr ⟨List.mk_mem_enum_iff_getElem?.mpr hget, ?_⟩, rfl⟩
    exact decide_eq_true ⟨Nat.pos_iff_ne_zero.mp hi, hne⟩

theorem Params.lookup_set_same (params : Params) (name value : String) :
    (params.set name value).lookup name = some value := by
  simp [Params.set, List.lookup]

theorem Params.lookup_set_diff (params : Params) (name other value : String)
    (hne : other ≠ name) : (params.set name value).lookup other = params.lookup other :=
  header_get_set_other params name other value hne

theorem Params.keys_set (params : Params) (name value : String) :
    ∀ k ∈ (params.set name value).keys, k = name ∨ k ∈ params.keys := by
  intro k hk
  unfold Params.set Params.keys at hk
  rw [List.map_cons, List.mem_cons] at hk
  rcases hk with hk | hk
  · exact Or.inl hk
  · obtain ⟨kv, hkv, rfl⟩ := List.mem_map.mp hk
    exact Or.inr (List.mem_map.mpr ⟨kv, (List.mem_filter.mp hkv).1, rfl⟩)

theorem fill_lookup_of_not_assigned (ms : List String) (name : String) :
    ∀ (l : List (Nat × String)) (params q : Params), fill ms l params = some q →
      name ∉ assigned l → q.lookup name = params.lookup name := by
  intro l
  induction l with
  | nil =>
    intro params q h _
    simp only [fill, Option.some.injEq] at h
    rw [h]
  | cons p rest ih =>
    intro params q h hna
    obtain ⟨i, n⟩ := p
    unfold fill at h
    by_cases hc : i ≠ 0 ∧ n ≠ ""
    · rw [if_pos hc] at h
      have hassigned : assigned ((i, n) :: rest) = n :: assigned rest := by
        simp [assigned, List.filter_cons, hc]
      rw [hassigned, List.mem_cons, not_or] at hna
      cases hms : ms[i]? with
      | none => simp [hms] at h
      | some v =>
        simp only [hms] at h
        rw [ih _ _ h hna.2]
        exact Params.lookup_set_diff _ _ _ _ hna.1
    · rw [if_neg hc] at h
      have hassigned : assigned ((i, n) :: rest) = assigned rest := by
        simp only [assigned, List.filter_cons, hc, decide_False]
        rfl
      rw [hassigned] at hna
      exact ih _ _ h hna

theorem fill_keys (ms : List String) :
    ∀ (l : List (Nat × String)) (params q : Params), fill ms l params = some q →
      ∀ k ∈ q.keys, k ∈ params.keys ∨ k ∈ assigned l := by
  intro l
  induction l with
  | nil =>
    intro params q h k hk
    simp only [fill, Option.some.injEq] at h
    rw [← h] at hk
    exact Or.inl hk
  | cons p rest ih =>
    intro params q h k hk
    obtain ⟨i, n⟩ := p
    unfold fill at h
    by_cases hc : i ≠ 0 ∧ n ≠ ""
    · rw [if_pos hc] at h
      have hassigned : assigned ((i, n) :: rest) = n :: assigned rest := by
        simp [assigned, List.filter_cons, hc]
      rw [hassigned]
      cases hms : ms[i]? with
      | none => simp [hms] at h
      | some v =>
        simp only [hms] at h
        rcases ih _ _ h k hk with h1 | h1
        · rcases Params.keys_set _ _ _ k h1 with h2 | h2
          · exact Or.inr (List.mem_cons.mpr (Or.inl h2))
          · exact Or.inl h2
        · exact Or.inr (List.mem_cons_of_mem _ h1)
    · rw [if_neg hc] at h
      have hassigned : assigned ((i, n) :: rest) = assigned rest := by
        simp only [assigned, List.filter_cons, hc, decide_False]
        rfl
      rw [hassigned]
      exact ih _ _ h k hk

theorem fill_lookup_of_nodup (ms : List String) :
    ∀ (l : List (Nat × String)) (params q : Params), (assigned l).Nodup →
      fill ms l params = some q →
      ∀ i name, (i, name) ∈ l → i ≠ 0 → name ≠ "" →
        ∃ s, ms[i]? = some s ∧ q.lookup name = some s := by
  intro l
  induction l with
  | nil => intro params q _ _ i name hmem; simp at hmem
  | cons p rest ih =>
    intro params q hnd h i name hmem hi hname
    obtain ⟨j, n⟩ := p
    unfold fill at h
    by_cases hc : j ≠ 0 ∧ n ≠ ""
    · rw [if_pos hc] at h
      have hassigned : assigned ((j, n) :: rest) = n :: assigned rest := by
        simp [assigned, List.filter_cons, hc]
      rw [hassigned, List.nodup_cons] at hnd
      cases hms : ms[j]? with
      | none => simp [hms] at h
      | some v =>
        simp only [hms] at h
        rcases List.mem_cons.mp hmem with heq | hrest
        · have hij : i = j := congrArg Prod.fst heq
          have hnn : name = n := congrArg Prod.snd heq
          subst hij
          subst hnn
          refine ⟨v, hms, ?_⟩
          rw [fill_lookup_of_not_assigned ms name rest _ q h hnd.1]
          exact Params.lookup_set_same _ _ _
        · exact ih _ _ hnd.2 h i name hrest hi hname
    · rw [if_neg hc] at h
      have hassigned : assigned ((j, n) :: rest) = assigned rest := by
        simp only [assigned, List.filter_cons, hc, decide_False]
        rfl
      rw [hassigned] at hnd
      rcases List.mem_cons.mp hmem with heq | hrest
      · have hij : i = j := congrArg Prod.fst heq
        have hnn : name = n := congrArg Prod.snd heq
        exact absurd ⟨hij ▸ hi, hnn ▸ hname⟩ hc
      · exact ih _ _ hnd h i name hrest hi hname

theorem GetParam_withParams (r : Request) (params : Params) (name : String) :
    GetParam (r.withParams params) name =
      match params.lookup name with
      | some param => some (param, true)
      | none => some ("", false) := by
  simp [GetParam, Request.withParams, Request.WithContext, Request.Context, WithValue,
    Context.Value, List.lookup]

/-- Dispatch to the first serving route, with the `params` the loop of lines
88-92 computes for it. -/
theorem ServeHTTP_of_firstServing (router : Router) (r : Request) (rt : route)
    (hfirst : router.firstServing r = some rt) :
    rt.matchesPath r.Path ∧ rt.method = r.Method ∧
    ∃ params, fill (rt.regex.FindStringSubmatch r.Path) rt.regex.SubexpNames.enum [] = some params ∧
      router.ServeHTTP r = some [Action.call rt.fn (r.withParams params)] := by
  have hfind1 : router.Routes.find? (fun x => decide (x.serves r)) = some rt := hfirst
  have hs : rt.serves r := of_decide_eq_true (List.find?_eq_some.mp hfind1).1
  obtain ⟨params, hfill⟩ := fill_names_total rt r.Path hs.1
  have hscan := scan_of_find_some r router.Routes [] rt hfind1
  rw [hfill] at hscan
  refine ⟨hs.1, hs.2, params, hfill, ?_⟩
  unfold Router.ServeHTTP
  rw [hscan]
  rfl

end simplerouter

/-! ## The tests of `router_test.go`, replayed -/

namespace simplerouter

theorem replay_TestGet :
    (New.Get "/get" (writes "get")).router.serve http.NewRecorder (NewRequest "GET" "/get") =
      some { header := [], wroteHeader := true, Code := 200, Body := "get" } := by
  decide

theorem replay_TestDefaultNotFound :
    (New.serve http.NewRecorder (NewRequest "GET" "/ops")).map (fun w => (w.Code, w.Body)) =
      some (404, "Not Found\n") := by
  decide

theorem replay_TestDefaultMethodNotAllowed :
    (opsRouter.serve http.NewRecorder (NewRequest "POST" "/ops")).map
        (fun w => (w.Code, w.Body, w.header.Get "Allow")) =
      some (405, "Method Not Allowed\n", some "GET") := by
  decide

theorem replay_TestCustomNotFound :
    customNotFoundRouter.serve http.NewRecorder (NewRequest "POST" "/ops") =
      some { header := [], wroteHeader := true, Code := 200, Body := "custom" } := by
  decide

theorem replay_TestCustomtMethodNotAllowed :
    customMethodNotAllowedRouter.serve http.NewRecorder (NewRequest "POST" "/ops") =
      some { header := [("Allow", "GET")], wroteHeader := true, Code := 200, Body := "custom" } := by
  decide

theorem replay_TestGetValidParams :
    (New.Get "/get/(?P<param1>\\d+)/(?P<param2>\\w+)" (showParams "param1" "param2")).router.serve
        http.NewRecorder (NewRequest "GET" "/get/123/abc") =
      some { header := [], wroteHeader := true, Code := 200, Body := "param1=123;param2=abc" } := by
  decide

theorem replay_TestGetInvalidParams :
    (New.Get "/get/(?P<param1>\\d+)/(?P<param2>\\w+)" (showParams "invalid1" "invalid2")).router.serve
        http.NewRecorder (NewRequest "GET" "/get/123/abc") =
      some { header := [], wroteHeader := true, Code := 200, Body := ";" } := by
  decide

/-- Of two routes that serve the same request, the one registered first
receives it. -/
theorem replay_shadowRouter :
    shadowRouter.serve http.NewRecorder (NewRequest "GET" "/get") =
      some { header := [], wroteHeader := true, Code := 200, Body := "first" } := by
  decide

end simplerouter

/-! ## The dispatch and registration contract -/

namespace simplerouter

/-- C1: if some registered route has a pattern that matches the path and the
method of the request, `ServeHTTP` calls the handler of the first such route
in registration order, once, with the request carrying that route's params,
and does nothing else: no header is set, no other handler is called, no
default error is written.  Routes before it (which do not serve the request)
and routes after it have no influence. -/
theorem ServeHTTP_dispatches_first_serving_route (router : Router) (r : Request)
    (h : ∃ rt ∈ router.Routes, rt.matchesPath r.Path ∧ rt.method = r.Method) :
    ∃ (rt : route) (pre post : List route) (params : Params),
      router.Routes = pre ++ rt :: post ∧
      (∀ x ∈ pre, ¬ (x.matchesPath r.Path ∧ x.method = r.Method)) ∧
      rt.matchesPath r.Path ∧ rt.method = r.Method ∧
      fill (rt.regex.FindStringSubmatch r.Path) rt.regex.SubexpNames.enum [] = some params ∧
      router.ServeHTTP r = some [Action.call rt.fn (r.withParams params)] ∧
      ∀ w, router.serve w r = rt.fn w (r.withParams params) := by
  obtain ⟨rt, hfind⟩ := firstServing_of_exists router r h
  have hfind1 : router.Routes.find? (fun x => decide (x.serves r)) = some rt := hfind
  obtain ⟨hserves, pre, post, hsplit, hpre⟩ := List.find?_eq_some.mp hfind1
  have hs : rt.serves r := of_decide_eq_true hserves
  obtain ⟨params, hfill⟩ := fill_names_total rt r.Path hs.1
  have hscan := scan_of_find_some r router.Routes [] rt hfind1
  rw [hfill] at hscan
  have hserve : router.ServeHTTP r = some [Action.call rt.fn (r.withParams params)] := by
    unfold Router.ServeHTTP
    rw [hscan]
    rfl
  refine ⟨rt, pre, post, params, hsplit, ?_, hs.1, hs.2, hfill, hserve, ?_⟩
  · intro x hx hxs
    have hnot := hpre x hx
    have : x.serves r := hxs
    simp [this] at hnot
  · intro w
    unfold Router.serve
    rw [hserve]
    simp only [perform, Action.perform]
    cases rt.fn w (r.withParams params) <;> rfl

theorem ServeHTTP_dispatches_first_serving_route_witness :
    ∃ (rt : route) (pre post : List route) (params : Params),
      shadowRouter.Routes = pre ++ rt :: post ∧
      (∀ x ∈ pre, ¬ (x.matchesPath "/get" ∧ x.method = "GET")) ∧
      rt.matchesPath "/get" ∧ rt.method = "GET" ∧
      fill (rt.regex.FindStringSubmatch "/get") rt.regex.SubexpNames.enum [] = some params ∧
      shadowRouter.ServeHTTP (NewRequest "GET" "/get") =
        some [Action.call rt.fn ((NewRequest "GET" "/get").withParams params)] ∧
      ∀ w, shadowRouter.serve w (NewRequest "GET" "/get") =
        rt.fn w ((NewRequest "GET" "/get").withParams params) :=
  ServeHTTP_dispatches_first_serving_route shadowRouter (NewRequest "GET" "/get")
    ((List.any_eq_true.mp (by decide :
      shadowRouter.Routes.any (fun rt => decide (rt.matchesPath "/get" ∧ rt.method = "GET")) = true)).imp
      (fun _ hrt => ⟨hrt.1, of_decide_eq_true hrt.2⟩))

/-- C2: if the path matches the pattern of some route but no route whose
pattern matches has the method of the request, `ServeHTTP` sets the header
`Allow` to the methods of all routes whose pattern matches, in registration
order, duplicates kept, joined by `", "`, and then writes the default 405
response (or calls `MethodNotAllowedHandler` when one is set): the handler
of no route is called.  With no `MethodNotAllowedHandler`, the status of the
response is 405 and its `Allow` header is that list. -/
theorem ServeHTTP_method_not_allowed (router : Router) (r : Request)
    (hpath : ∃ rt ∈ router.Routes, rt.matchesPath r.Path)
    (hmeth : ∀ rt ∈ router.Routes, rt.matchesPath r.Path → rt.method ≠ r.Method) :
    router.ServeHTTP r = some
      [Action.headerSet "Allow" (", ".intercalate (router.allowed r.Path)),
        match router.MethodNotAllowedHandler with
        | none => Action.httpError "Method Not Allowed" 405
        | some h => Action.call h r] ∧
    (router.MethodNotAllowedHandler = none →
      ∀ w : http.ResponseWriter, w.wroteHeader = false →
        ∃ w1, router.serve w r = some w1 ∧ w1.Code = 405 ∧
          w1.header.Get "Allow" = some (", ".intercalate (router.allowed r.Path))) := by
  have hserve := ServeHTTP_of_wrong_method router r hpath hmeth
  refine ⟨hserve, ?_⟩
  intro hnone w hw
  unfold Router.serve
  rw [hserve, hnone]
  simp only [perform, Action.perform]
  have hs := Error_spec { w with header := w.header.Set "Allow" (", ".intercalate (router.allowed r.Path)) }
    "Method Not Allowed" 405 hw
  refine ⟨_, rfl, hs.1, ?_⟩
  rw [hs.2.2]
  exact header_get_set_self _ _ _

theorem ServeHTTP_method_not_allowed_witness :
    opsRouter.ServeHTTP (NewRequest "POST" "/ops") = some
      [Action.headerSet "Allow" "GET",
        match opsRouter.MethodNotAllowedHandler with
        | none => Action.httpError "Method Not Allowed" 405
        | some h => Action.call h (NewRequest "POST" "/ops")] ∧
    (opsRouter.MethodNotAllowedHandler = none →
      ∀ w : http.ResponseWriter, w.wroteHeader = false →
        ∃ w1, opsRouter.serve w (NewRequest "POST" "/ops") = some w1 ∧ w1.Code = 405 ∧
          w1.header.Get "Allow" = some "GET") :=
  ServeHTTP_method_not_allowed opsRouter (NewRequest "POST" "/ops")
    ((List.any_eq_true.mp (by decide :
      opsRouter.Routes.any (fun rt => decide (rt.matchesPath "/ops")) = true)).imp
      (fun _ hrt => ⟨hrt.1, of_decide_eq_true hrt.2⟩))
    (fun rt hrt => of_decide_eq_true (List.all_eq_true.mp (by decide :
      opsRouter.Routes.all (fun rt => decide (rt.matchesPath "/ops" → rt.method ≠ "POST")) = true)
      rt hrt))

/-- C3: if the path matches the pattern of no route (as for a router without
routes), then whatever the method `ServeHTTP` only writes the default 404
response (or calls `NotFoundHandler` when one is set): the handler of no
route is called and no `Allow` header is set.  With no `NotFoundHandler`,
the status of the response is 404 and its `Allow` header is as it was. -/
theorem ServeHTTP_not_found (router : Router) (r : Request)
    (h : ∀ rt ∈ router.Routes, ¬ rt.matchesPath r.Path) :
    router.ServeHTTP r = some
      [match router.NotFoundHandler with
        | none => Action.httpError "Not Found" 404
        | some h => Action.call h r] ∧
    (router.NotFoundHandler = none →
      ∀ w : http.ResponseWriter, w.wroteHeader = false →
        ∃ w1, router.serve w r = some w1 ∧ w1.Code = 404 ∧
          w1.header.Get "Allow" = w.header.Get "Allow") := by
  have hserve := ServeHTTP_of_no_path router r h
  refine ⟨hserve, ?_⟩
  intro hnone w hw
  unfold Router.serve
  rw [hserve, hnone]
  simp only [perform, Action.perform]
  exact ⟨_, rfl, (Error_spec _ _ _ hw).1, (Error_spec _ _ _ hw).2.2⟩

theorem ServeHTTP_not_found_witness :
    (∀ rt ∈ opsRouter.Routes, ¬ rt.matchesPath "/ops2") ∧
    opsRouter.ServeHTTP (NewRequest "GET" "/ops2") = some
      [match opsRouter.NotFoundHandler with
        | none => Action.httpError "Not Found" 404
        | some h => Action.call h (NewRequest "GET" "/ops2")] ∧
    (opsRouter.NotFoundHandler = none →
      ∀ w : http.ResponseWriter, w.wroteHeader = false →
        ∃ w1, opsRouter.serve w (NewRequest "GET" "/ops2") = some w1 ∧ w1.Code = 404 ∧
          w1.header.Get "Allow" = w.header.Get "Allow") :=
  have hno : ∀ rt ∈ opsRouter.Routes, ¬ rt.matchesPath "/ops2" :=
    fun rt hrt => of_decide_eq_true (List.all_eq_true.mp (by decide :
      opsRouter.Routes.all (fun rt => decide (¬ rt.matchesPath "/ops2")) = true) rt hrt)
  ⟨hno, ServeHTTP_not_found opsRouter (NewRequest "GET" "/ops2") hno⟩

end simplerouter

namespace simplerouter

/-- C4: when `ServeHTTP` dispatches a request to a route whose named capture
groups have pairwise distinct names, `GetParam` on the request handed to the
handler returns `(s, true)` for the name of each named group, where `s` is
the text that group matched: the entry of `FindStringSubmatch` at the index
of the group. -/
theorem GetParam_returns_named_groups (router : Router) (r : Request) (rt : route)
    (hdispatch : router.firstServing r = some rt)
    (hdistinct : (namedGroups rt.regex).Nodup) :
    ∃ params, router.ServeHTTP r = some [Action.call rt.fn (r.withParams params)] ∧
      ∀ i name, 0 < i → rt.regex.SubexpNames[i]? = some name → name ≠ "" →
        ∃ s, (rt.regex.FindStringSubmatch r.Path)[i]? = some s ∧
          GetParam (r.withParams params) name = some (s, true) := by
  obtain ⟨_, _, params, hfill, hserve⟩ := ServeHTTP_of_firstServing router r rt hdispatch
  refine ⟨params, hserve, ?_⟩
  intro i name hi hget hname
  obtain ⟨s, hs, hlookup⟩ := fill_lookup_of_nodup _ _ [] params hdistinct hfill i name
    (List.mk_mem_enum_iff_getElem?.mpr hget) (Nat.pos_iff_ne_zero.mp hi) hname
  refine ⟨s, hs, ?_⟩
  rw [GetParam_withParams, hlookup]

theorem GetParam_returns_named_groups_witness :
    ∃ params, paramsRouter.ServeHTTP (NewRequest "GET" "/get/123/abc") =
        some [Action.call (writes "params") ((NewRequest "GET" "/get/123/abc").withParams params)] ∧
      ∀ i name, 0 < i → ["", "param1", "param2"][i]? = some name → name ≠ "" →
        ∃ s, ["/get/123/abc", "123", "abc"][i]? = some s ∧
          GetParam ((NewRequest "GET" "/get/123/abc").withParams params) name = some (s, true) :=
  GetParam_returns_named_groups paramsRouter (NewRequest "GET" "/get/123/abc")
    ((paramsRouter.firstServing (NewRequest "GET" "/get/123/abc")).get (by decide))
    (Option.some_get _).symm (by decide)

/-- C5, at a failing input: on a fresh request, which has no params attached
to its context, `GetParam` does not return `("", false)`: the type assertion
of its first line panics.  The request `NotFoundHandler` receives is such a
request. -/
theorem GetParam_panics_without_params :
    GetParam (NewRequest "POST" "/ops") "id" = none ∧
    customNotFoundRouter.ServeHTTP (NewRequest "POST" "/ops") =
      some [Action.call (writes "custom") (NewRequest "POST" "/ops")] := by
  constructor
  · rfl
  · rfl

/-- C6: when `ServeHTTP` dispatches a request to a route, every key of the
params handed to the handler is the non-empty name of a capture group of the
route's pattern, at an index other than 0; `GetParam` on the handler's
request returns `("", false)`, without failing, for every name that is not
the name of a named group of the route. -/
theorem params_keys_are_named_groups (router : Router) (r : Request) (rt : route)
    (hdispatch : router.firstServing r = some rt) :
    ∃ params, router.ServeHTTP r = some [Action.call rt.fn (r.withParams params)] ∧
      (∀ k ∈ params.keys, k ≠ "" ∧ ∃ i, 0 < i ∧ rt.regex.SubexpNames[i]? = some k) ∧
      (∀ name, (¬ ∃ i, 0 < i ∧ rt.regex.SubexpNames[i]? = some name ∧ name ≠ "") →
        GetParam (r.withParams params) name = some ("", false)) := by
  obtain ⟨_, _, params, hfill, hserve⟩ := ServeHTTP_of_firstServing router r rt hdispatch
  refine ⟨params, hserve, ?_, ?_⟩
  · intro k hk
    rcases fill_keys _ _ [] params hfill k hk with h | h
    · simp [Params.keys] at h
    · obtain ⟨i, hi, hget, hne⟩ := (mem_namedGroups rt.regex k).mp h
      exact ⟨hne, i, hi, hget⟩
  · intro name hname
    have hna : name ∉ assigned rt.regex.SubexpNames.enum :=
      fun hmem => hname ((mem_namedGroups rt.regex name).mp hmem)
    rw [GetParam_withParams, fill_lookup_of_not_assigned _ name _ [] params hfill hna]
    rfl

theorem params_keys_are_named_groups_witness :
    ∃ params, paramsRouter.ServeHTTP (NewRequest "GET" "/get/123/abc") =
        some [Action.call (writes "params") ((NewRequest "GET" "/get/123/abc").withParams params)] ∧
      (∀ k ∈ params.keys, k ≠ "" ∧ ∃ i, 0 < i ∧ ["", "param1", "param2"][i]? = some k) ∧
      (∀ name, (¬ ∃ i, 0 < i ∧ ["", "param1", "param2"][i]? = some name ∧ name ≠ "") →
        GetParam ((NewRequest "GET" "/get/123/abc").withParams params) name = some ("", false)) :=
  params_keys_are_named_groups paramsRouter (NewRequest "GET" "/get/123/abc")
    ((paramsRouter.firstServing (NewRequest "GET" "/get/123/abc")).get (by decide))
    (Option.some_get _).symm

end simplerouter

namespace simplerouter

/-- C7, at a failing input: the pattern `/a|/b` compiles and matches, as a
whole, the paths `/a` and `/b` only.  The route registered with it is
compiled from `^/a|/b$`, where `^` belongs to the first alternative only and
`$` to the second only.  It matches the path `/ax`, of which the pattern
matches only the proper beginning `/a`, and the path `/x/b`, of which it
matches only the proper end `/b`; `ServeHTTP` dispatches both requests to
the handler of the route. -/
theorem anchors_do_not_span_alternation :
    (regexp.Compile "/a|/b").regexp?.isSome = true ∧
    regexp.matchesWhole "/a|/b" "/a" = true ∧
    regexp.matchesWhole "/a|/b" "/b" = true ∧
    regexp.matchesWhole "/a|/b" "/ax" = false ∧
    regexp.matchesWhole "/a|/b" "/x/b" = false ∧
    (eitherRouter.Routes.map (fun rt => rt.regex.FindStringSubmatch "/ax")) = [["/a"]] ∧
    (eitherRouter.Routes.map (fun rt => rt.regex.FindStringSubmatch "/x/b")) = [["/b"]] ∧
    eitherRouter.ServeHTTP (NewRequest "GET" "/ax") =
      some [Action.call (writes "either") ((NewRequest "GET" "/ax").withParams [])] ∧
    eitherRouter.ServeHTTP (NewRequest "GET" "/x/b") =
      some [Action.call (writes "either") ((NewRequest "GET" "/x/b").withParams [])] := by
  refine ⟨by decide, by decide, by decide, by decide, by decide, by decide, by decide, rfl, rfl⟩

/-- C8: when `NotFoundHandler` is set, a request whose path matches the
pattern of no route makes `ServeHTTP` call `NotFoundHandler` once, with the
original request, and do nothing else.  When `MethodNotAllowedHandler` is
set, a request whose path matches some pattern but no route with its method
makes `ServeHTTP` set the `Allow` header and call `MethodNotAllowedHandler`
once, with the original request; no default status or body is written.  A
custom handler that writes status 200 and the body `custom` therefore gives
exactly that status and body. -/
theorem custom_handlers_supersede_defaults (router : Router) (r : Request) (h : HandlerFunc) :
    (router.NotFoundHandler = some h → (∀ rt ∈ router.Routes, ¬ rt.matchesPath r.Path) →
      router.ServeHTTP r = some [Action.call h r] ∧
      (∀ w, router.serve w r = h w r) ∧
      (h = writes "custom" → ∃ w1, router.serve http.NewRecorder r = some w1 ∧
        w1.Code = 200 ∧ w1.Body = "custom" ∧ w1.header = [])) ∧
    (router.MethodNotAllowedHandler = some h → (∃ rt ∈ router.Routes, rt.matchesPath r.Path) →
      (∀ rt ∈ router.Routes, rt.matchesPath r.Path → rt.method ≠ r.Method) →
      router.ServeHTTP r = some
        [Action.headerSet "Allow" (", ".intercalate (router.allowed r.Path)), Action.call h r] ∧
      (∀ w : http.ResponseWriter, router.serve w r =
        h { w with header := w.header.Set "Allow" (", ".intercalate (router.allowed r.Path)) } r) ∧
      (h = writes "custom" → ∃ w1, router.serve http.NewRecorder r = some w1 ∧
        w1.Code = 200 ∧ w1.Body = "custom")) := by
  constructor
  · intro hset hno
    have hserve : router.ServeHTTP r = some [Action.call h r] := by
      rw [ServeHTTP_of_no_path router r hno, hset]
    have hrun : ∀ w, router.serve w r = h w r := by
      intro w
      unfold Router.serve
      rw [hserve]
      simp only [perform, Action.perform]
      cases h w r <;> rfl
    refine ⟨hserve, hrun, ?_⟩
    intro hh
    rw [hrun, hh]
    exact ⟨_, rfl, rfl, rfl, rfl⟩
  · intro hset hpath hmeth
    have hserve : router.ServeHTTP r = some
        [Action.headerSet "Allow" (", ".intercalate (router.allowed r.Path)), Action.call h r] := by
      rw [ServeHTTP_of_wrong_method router r hpath hmeth, hset]
    have hrun : ∀ w : http.ResponseWriter, router.serve w r =
        h { w with header := w.header.Set "Allow" (", ".intercalate (router.allowed r.Path)) } r := by
      intro w
      unfold Router.serve
      rw [hserve]
      simp only [perform, Action.perform]
      cases h { w with header := w.header.Set "Allow" (", ".intercalate (router.allowed r.Path)) } r <;> rfl
    refine ⟨hserve, hrun, ?_⟩
    intro hh
    rw [hrun, hh]
    exact ⟨_, rfl, rfl, rfl⟩

theorem custom_handlers_supersede_defaults_witness :
    (customNotFoundRouter.ServeHTTP (NewRequest "POST" "/ops") =
        some [Action.call (writes "custom") (NewRequest "POST" "/ops")] ∧
      (∀ w, customNotFoundRouter.serve w (NewRequest "POST" "/ops") =
        writes "custom" w (NewRequest "POST" "/ops")) ∧
      (writes "custom" = writes "custom" →
        ∃ w1, customNotFoundRouter.serve http.NewRecorder (NewRequest "POST" "/ops") = some w1 ∧
          w1.Code = 200 ∧ w1.Body = "custom" ∧ w1.header = [])) ∧
    (customMethodNotAllowedRouter.ServeHTTP (NewRequest "POST" "/ops") = some
        [Action.headerSet "Allow" "GET", Action.call (writes "custom") (NewRequest "POST" "/ops")] ∧
      (∀ w : http.ResponseWriter, customMethodNotAllowedRouter.serve w (NewRequest "POST" "/ops") =
        writes "custom" { w with header := w.header.Set "Allow" "GET" } (NewRequest "POST" "/ops")) ∧
      (writes "custom" = writes "custom" →
        ∃ w1, customMethodNotAllowedRouter.serve http.NewRecorder (NewRequest "POST" "/ops") = some w1 ∧
          w1.Code = 200 ∧ w1.Body = "custom")) :=
  ⟨(custom_handlers_supersede_defaults customNotFoundRouter (NewRequest "POST" "/ops")
      (writes "custom")).1 rfl (fun _ hrt => absurd hrt (List.not_mem_nil _)),
   (custom_handlers_supersede_defaults customMethodNotAllowedRouter (NewRequest "POST" "/ops")
      (writes "custom")).2 rfl
      ((List.any_eq_true.mp (by decide :
        customMethodNotAllowedRouter.Routes.any (fun rt => decide (rt.matchesPath "/ops")) = true)).imp
        (fun _ hrt => ⟨hrt.1, of_decide_eq_true hrt.2⟩))
      (fun rt hrt => of_decide_eq_true (List.all_eq_true.mp (by decide :
        customMethodNotAllowedRouter.Routes.all
          (fun rt => decide (rt.matchesPath "/ops" → rt.method ≠ "POST")) = true) rt hrt))⟩

/-- C9: when `"^" + pattern + "$"` is not a valid regular expression, that
is when compiling it is an error, `add` panics, and so does each of the nine
verb wrappers; no route is registered: the router is left as it was, with
the same list of routes. -/
theorem add_panics_on_invalid_pattern (router : Router) (method pattern : String)
    (fn : HandlerFunc) (h : regexp.MustCompile ("^" ++ pattern ++ "$") = regexp.Compiled.error) :
    router.add method pattern fn = Outcome.panic router ∧
    (router.add method pattern fn).router.Routes = router.Routes ∧
    router.Get pattern fn = Outcome.panic router ∧
    router.Post pattern fn = Outcome.panic router ∧
    router.Put pattern fn = Outcome.panic router ∧
    router.Patch pattern fn = Outcome.panic router ∧
    router.Delete pattern fn = Outcome.panic router ∧
    router.Head pattern fn = Outcome.panic router ∧
    router.Options pattern fn = Outcome.panic router ∧
    router.Connect pattern fn = Outcome.panic router ∧
    router.Trace pattern fn = Outcome.panic router := by
  have hadd : ∀ m, router.add m pattern fn = Outcome.panic router := by
    intro m
    unfold Router.add
    rw [h]
  refine ⟨hadd _, ?_, hadd _, hadd _, hadd _, hadd _, hadd _, hadd _, hadd _, hadd _, hadd _⟩
  rw [hadd]
  rfl

theorem add_panics_on_invalid_pattern_witness :
    regexp.MustCompile ("^" ++ "(" ++ "$") = regexp.Compiled.error ∧
    opsRouter.add "GET" "(" (writes "open") = Outcome.panic opsRouter ∧
    (opsRouter.add "GET" "(" (writes "open")).router.Routes = opsRouter.Routes ∧
    opsRouter.Get "(" (writes "open") = Outcome.panic opsRouter ∧
    opsRouter.Post "(" (writes "open") = Outcome.panic opsRouter ∧
    opsRouter.Put "(" (writes "open") = Outcome.panic opsRouter ∧
    opsRouter.Patch "(" (writes "open") = Outcome.panic opsRouter ∧
    opsRouter.Delete "(" (writes "open") = Outcome.panic opsRouter ∧
    opsRouter.Head "(" (writes "open") = Outcome.panic opsRouter ∧
    opsRouter.Options "(" (writes "open") = Outcome.panic opsRouter ∧
    opsRouter.Connect "(" (writes "open") = Outcome.panic opsRouter ∧
    opsRouter.Trace "(" (writes "open") = Outcome.panic opsRouter :=
  ⟨rfl, add_panics_on_invalid_pattern opsRouter "GET" "(" (writes "open") rfl⟩

/-- C10: when `"^" + pattern + "$"` compiles, `add` returns normally and
appends one route, with the given method, the compiled expression and the
given handler, at the end of `Routes`: the routes registered before are
still there, unchanged and at the same positions, the length grows by one,
and `NotFoundHandler` and `MethodNotAllowedHandler` are unchanged. -/
theorem add_appends_one_route (router : Router) (method pattern : String) (fn : HandlerFunc)
    (re : regexp.Regexp) (h : regexp.MustCompile ("^" ++ pattern ++ "$") = regexp.Compiled.ok re) :
    ∃ router1, router.add method pattern fn = Outcome.ok router1 ∧
      router1.Routes = router.Routes ++ [{ method := method, regex := re, fn := fn }] ∧
      router1.Routes.length = router.Routes.length + 1 ∧
      (∀ i, i < router.Routes.length → router1.Routes[i]? = router.Routes[i]?) ∧
      router1.NotFoundHandler = router.NotFoundHandler ∧
      router1.MethodNotAllowedHandler = router.MethodNotAllowedHandler := by
  refine ⟨{ router with Routes := router.Routes ++ [{ method := method, regex := re, fn := fn }] },
    ?_, rfl, ?_, ?_, rfl, rfl⟩
  · unfold Router.add
    rw [h]
  · simp
  · intro i hi
    exact List.getElem?_append_left hi

theorem add_appends_one_route_witness :
    ∃ router1, opsRouter.add "POST" "/ops" (writes "posted") = Outcome.ok router1 ∧
      router1.Routes = opsRouter.Routes ++
        [{ method := "POST"
           regex := (regexp.MustCompile ("^" ++ "/ops" ++ "$")).regexp?.get (by decide)
           fn := writes "posted" }] ∧
      router1.Routes.length = opsRouter.Routes.length + 1 ∧
      (∀ i, i < opsRouter.Routes.length → router1.Routes[i]? = opsRouter.Routes[i]?) ∧
      router1.NotFoundHandler = opsRouter.NotFoundHandler ∧
      router1.MethodNotAllowedHandler = opsRouter.MethodNotAllowedHandler :=
  add_appends_one_route opsRouter "POST" "/ops" (writes "posted")
    ((regexp.MustCompile ("^" ++ "/ops" ++ "$")).regexp?.get (by decide))
    (regexp.Compiled.eq_ok_of_regexp? _ _ (Option.some_get _).symm)

end simplerouter

/-! ## Further lemmas: the loop depends on method and path only, appended
routes, the last assignment to a name -/

namespace simplerouter

theorem scan_congr (r1 r2 : Request) (hm : r1.Method = r2.Method) (hp : r1.Path = r2.Path) :
    ∀ (routes : List route) (allow : List String), scan r1 routes allow = scan r2 routes allow := by
  intro routes
  induction routes with
  | nil => intro allow; rfl
  | cons x rest ih =>
    intro allow
    unfold scan
    simp only [hm, hp, ih]

theorem scan_append (r : Request) (x : route) :
    ∀ (routes : List route) (allow : List String),
      scan r (routes ++ [x]) allow =
        match scan r routes allow with
        | .dispatch rt params => .dispatch rt params
        | .fallthrough a => scan r [x] a
        | .panic => .panic := by
  intro routes
  induction routes with
  | nil => intro allow; simp [scan]
  | cons y rest ih =>
    intro allow
    have e1 : ∀ (l : List route), scan r (y :: l) allow =
        if (y.regex.FindStringSubmatch r.Path).length > 0 then
          if r.Method ≠ y.method then scan r l (allow ++ [y.method])
          else
            match fill (y.regex.FindStringSubmatch r.Path) y.regex.SubexpNames.enum [] with
            | none => .panic
            | some params => .dispatch y params
        else scan r l allow := fun _ => rfl
    rw [List.cons_append, e1, e1]
    by_cases hm : (y.regex.FindStringSubmatch r.Path).length > 0
    · by_cases hne : r.Method ≠ y.method
      · rw [if_pos hm, if_pos hm, if_pos hne, if_pos hne]
        exact ih _
      · rw [if_pos hm, if_pos hm, if_neg hne, if_neg hne]
        cases fill (y.regex.FindStringSubmatch r.Path) y.regex.SubexpNames.enum [] <;> rfl
    · rw [if_neg hm, if_neg hm]
      exact ih _

theorem enum_pairwise (names : List String) :
    names.enum.Pairwise (fun a b => a.1 < b.1) := by
  have h : (names.enum.map Prod.fst).Pairwise (fun a b => a < b) := by
    rw [List.enum_map_fst]
    exact List.pairwise_lt_range _
  exact List.pairwise_map.mp h

theorem mem_assigned (l : List (Nat × String)) (name : String) :
    name ∈ assigned l ↔ ∃ i, (i, name) ∈ l ∧ i ≠ 0 ∧ name ≠ "" := by
  unfold assigned
  constructor
  · intro h
    obtain ⟨p, hp, hname⟩ := List.mem_map.mp h
    obtain ⟨i, n⟩ := p
    obtain ⟨hmem, hcond⟩ := List.mem_filter.mp hp
    have hc : i ≠ 0 ∧ n ≠ "" := of_decide_eq_true hcond
    simp only at hname
    subst hname
    exact ⟨i, hmem, hc.1, hc.2⟩
  · rintro ⟨i, hmem, hi, hne⟩
    exact List.mem_map.mpr ⟨(i, name), List.mem_filter.mpr ⟨hmem, decide_eq_true ⟨hi, hne⟩⟩, rfl⟩

/-- The entry of a name is the text of the last pair that assigns it. -/
theorem fill_lookup_last (ms : List String) :
    ∀ (l : List (Nat × String)) (params q : Params),
      l.Pairwise (fun a b => a.1 < b.1) → fill ms l params = some q →
      ∀ i name, (i, name) ∈ l → i ≠ 0 → name ≠ "" → (∀ j, (j, name) ∈ l → j ≤ i) →
        ∃ s, ms[i]? = some s ∧ q.lookup name = some s := by
  intro l
  induction l with
  | nil => intro params q _ _ i name hmem; simp at hmem
  | cons p rest ih =>
    intro params q hpw h i name hmem hi hname hlast
    obtain ⟨j, n⟩ := p
    rw [List.pairwise_cons] at hpw
    have hlast1 : ∀ k, (k, name) ∈ rest → k ≤ i := fun k hk => hlast k (List.mem_cons_of_mem _ hk)
    unfold fill at h
    by_cases hrest : (i, name) ∈ rest
    · by_cases hc : j ≠ 0 ∧ n ≠ ""
      · rw [if_pos hc] at h
        cases hms : ms[j]? with
        | none => simp [hms] at h
        | some v =>
          simp only [hms] at h
          exact ih _ _ hpw.2 h i name hrest hi hname hlast1
      · rw [if_neg hc] at h
        exact ih _ _ hpw.2 h i name hrest hi hname hlast1
    · have heq : (i, name) = (j, n) := by
        rcases List.mem_cons.mp hmem with h1 | h1
        · exact h1
        · exact absurd h1 hrest
      have hij : i = j := congrArg Prod.fst heq
      have hnn : name = n := congrArg Prod.snd heq
      subst hij
      subst hnn
      have hna : name ∉ assigned rest := by
        intro hmem1
        obtain ⟨k, hk, _, _⟩ := (mem_assigned rest name).mp hmem1
        have h1 : i < k := hpw.1 (k, name) hk
        have h2 : k ≤ i := hlast1 k hk
        omega
      rw [if_pos ⟨hi, hname⟩] at h
      cases hms : ms[i]? with
      | none => simp [hms] at h
      | some v =>
        simp only [hms] at h
        refine ⟨v, rfl, ?_⟩
        rw [fill_lookup_of_not_assigned ms name rest _ q h hna]
        exact Params.lookup_set_same _ _ _

theorem Params.keys_set_nodup (params : Params) (name value : String)
    (h : params.keys.Nodup) : (params.set name value).keys.Nodup := by
  unfold Params.set Params.keys
  rw [List.map_cons, List.nodup_cons]
  constructor
  · intro hmem
    obtain ⟨kv, hkv, hk⟩ := List.mem_map.mp hmem
    have := (List.mem_filter.mp hkv).2
    simp only [ne_eq, decide_not, Bool.not_eq_true', decide_eq_false_iff_not] at this
    exact this hk
  · exact List.Nodup.sublist (List.Sublist.map _ (List.filter_sublist _)) h

theorem Params.mem_keys_set (params : Params) (name value k : String)
    (h : k = name ∨ k ∈ params.keys) : k ∈ (params.set name value).keys := by
  unfold Params.set Params.keys
  rw [List.map_cons, List.mem_cons]
  by_cases hk : k = name
  · exact Or.inl hk
  · right
    rcases h with h | h
    · exact absurd h hk
    · obtain ⟨kv, hkv, hfst⟩ := List.mem_map.mp h
      refine List.mem_map.mpr ⟨kv, List.mem_filter.mpr ⟨hkv, ?_⟩, hfst⟩
      simp only [ne_eq, decide_not, Bool.not_eq_true', decide_eq_false_iff_not]
      rw [hfst]
      exact hk

theorem fill_keys_nodup (ms : List String) :
    ∀ (l : List (Nat × String)) (params q : Params), params.keys.Nodup →
      fill ms l params = some q → q.keys.Nodup := by
  intro l
  induction l with
  | nil =>
    intro params q hnd h
    simp only [fill, Option.some.injEq] at h
    rw [← h]
    exact hnd
  | cons p rest ih =>
    intro params q hnd h
    obtain ⟨i, n⟩ := p
    unfold fill at h
    by_cases hc : i ≠ 0 ∧ n ≠ ""
    · rw [if_pos hc] at h
      cases hms : ms[i]? with
      | none => simp [hms] at h
      | some v =>
        simp only [hms] at h
        exact ih _ _ (Params.keys_set_nodup _ _ _ hnd) h
    · rw [if_neg hc] at h
      exact ih _ _ hnd h

theorem fill_keys_of_assigned (ms : List String) :
    ∀ (l : List (Nat × String)) (params q : Params), fill ms l params = some q →
      ∀ k, (k ∈ params.keys ∨ k ∈ assigned l) → k ∈ q.keys := by
  intro l
  induction l with
  | nil =>
    intro params q h k hk
    simp only [fill, Option.some.injEq] at h
    rw [← h]
    rcases hk with hk | hk
    · exact hk
    · simp [assigned] at hk
  | cons p rest ih =>
    intro params q h k hk
    obtain ⟨i, n⟩ := p
    unfold fill at h
    by_cases hc : i ≠ 0 ∧ n ≠ ""
    · rw [if_pos hc] at h
      have hassigned : assigned ((i, n) :: rest) = n :: assigned rest := by
        simp [assigned, List.filter_cons, hc]
      rw [hassigned, List.mem_cons] at hk
      cases hms : ms[i]? with
      | none => simp [hms] at h
      | some v =>
        simp only [hms] at h
        apply ih _ _ h k
        rcases hk with hk | hk | hk
        · exact Or.inl (Params.mem_keys_set _ _ _ _ (Or.inr hk))
        · exact Or.inl (Params.mem_keys_set _ _ _ _ (Or.inl hk))
        · exact Or.inr hk
    · rw [if_neg hc] at h
      have hassigned : assigned ((i, n) :: rest) = assigned rest := by
        simp only [assigned, List.filter_cons, hc, decide_False]
        rfl
      rw [hassigned] at hk
      exact ih _ _ h k hk

end simplerouter

/-! ## The verb wrappers, the default bodies, idempotence -/

namespace simplerouter

/-- A router made by `New()` and one successful `add`: a request whose path
matches the pattern is dispatched to the handler when its method is the
registered one, and resolved as 405 otherwise. -/
theorem single_route_dispatch (m pattern : String) (fn : HandlerFunc) (re : regexp.Regexp)
    (hvalid : regexp.MustCompile ("^" ++ pattern ++ "$") = regexp.Compiled.ok re) :
    (New.add m pattern fn).router.Routes = [{ method := m, regex := re, fn := fn }] ∧
    ∀ r : Request, (re.FindStringSubmatch r.Path).length > 0 →
      (r.Method = m → ∃ params, (New.add m pattern fn).router.ServeHTTP r =
        some [Action.call fn (r.withParams params)]) ∧
      (r.Method ≠ m → (New.add m pattern fn).router.ServeHTTP r =
        some [Action.headerSet "Allow" m, Action.httpError "Method Not Allowed" 405]) := by
  have hadd : (New.add m pattern fn).router =
      { Routes := [{ method := m, regex := re, fn := fn }], NotFoundHandler := none,
        MethodNotAllowedHandler := none } := by
    unfold Router.add
    rw [hvalid]
    rfl
  rw [hadd]
  refine ⟨rfl, ?_⟩
  intro r hpath
  constructor
  · intro hm
    have hfirst : Router.firstServing
        { Routes := [{ method := m, regex := re, fn := fn }], NotFoundHandler := none,
          MethodNotAllowedHandler := none } r = some { method := m, regex := re, fn := fn } := by
      unfold Router.firstServing
      rw [List.find?_cons]
      have hs : route.serves { method := m, regex := re, fn := fn } r := ⟨hpath, hm.symm⟩
      simp [hs]
    obtain ⟨_, _, params, _, hserve⟩ := ServeHTTP_of_firstServing _ r _ hfirst
    exact ⟨params, hserve⟩
  · intro hm
    have h := ServeHTTP_of_wrong_method
      { Routes := [{ method := m, regex := re, fn := fn }], NotFoundHandler := none,
        MethodNotAllowedHandler := none } r
      ⟨_, List.mem_singleton.mpr rfl, hpath⟩
      (by
        intro rt hrt _
        rw [List.mem_singleton.mp hrt]
        exact fun h => hm h.symm)
    rw [h]
    have hp : route.matchesPath { method := m, regex := re, fn := fn } r.Path := hpath
    simp [Router.allowed, List.filter_cons, hp, String.intercalate, String.intercalate.go]

/-- C11: each of the nine verb wrappers is `add` with its own method token
(`Get` with GET, `Post` with POST, `Put` with PUT, `Patch` with PATCH,
`Delete` with DELETE, `Head` with HEAD, `Options` with OPTIONS, `Connect`
with CONNECT, `Trace` with TRACE).  On a router made by `New()` with one
route registered through a wrapper, a request whose path matches the pattern
is dispatched to the registered handler when its method is the wrapper's,
and is not when its method is any other: it is then resolved as 405. -/
theorem verb_wrappers_register_own_method (pattern : String) (fn : HandlerFunc)
    (re : regexp.Regexp) (hvalid : regexp.MustCompile ("^" ++ pattern ++ "$") = regexp.Compiled.ok re) :
    wrappers.map Prod.snd =
      ["GET", "POST", "PUT", "PATCH", "DELETE", "HEAD", "OPTIONS", "CONNECT", "TRACE"] ∧
    ∀ p ∈ wrappers,
      (∀ router : Router, p.1 router pattern fn = router.add p.2 pattern fn) ∧
      (p.1 New pattern fn).router.Routes = [{ method := p.2, regex := re, fn := fn }] ∧
      ∀ r : Request, (re.FindStringSubmatch r.Path).length > 0 →
        (r.Method = p.2 → ∃ params, (p.1 New pattern fn).router.ServeHTTP r =
          some [Action.call fn (r.withParams params)]) ∧
        (r.Method ≠ p.2 → (p.1 New pattern fn).router.ServeHTTP r =
          some [Action.headerSet "Allow" p.2, Action.httpError "Method Not Allowed" 405]) := by
  refine ⟨rfl, ?_⟩
  intro p hp
  simp only [wrappers, List.mem_cons, List.mem_singleton, List.not_mem_nil, or_false] at hp
  rcases hp with h | h | h | h | h | h | h | h | h <;> subst h <;>
    exact ⟨fun _ => rfl, single_route_dispatch _ pattern fn re hvalid⟩

theorem verb_wrappers_register_own_method_witness :
    wrappers.map Prod.snd =
      ["GET", "POST", "PUT", "PATCH", "DELETE", "HEAD", "OPTIONS", "CONNECT", "TRACE"] ∧
    ∀ p ∈ wrappers,
      (∀ router : Router, p.1 router "/get" (writes "get") = router.add p.2 "/get" (writes "get")) ∧
      (p.1 New "/get" (writes "get")).router.Routes =
        [{ method := p.2
           regex := (regexp.MustCompile ("^" ++ "/get" ++ "$")).regexp?.get (by decide)
           fn := writes "get" }] ∧
      ∀ r : Request,
        (((regexp.MustCompile ("^" ++ "/get" ++ "$")).regexp?.get (by decide)).FindStringSubmatch
          r.Path).length > 0 →
        (r.Method = p.2 → ∃ params, (p.1 New "/get" (writes "get")).router.ServeHTTP r =
          some [Action.call (writes "get") (r.withParams params)]) ∧
        (r.Method ≠ p.2 → (p.1 New "/get" (writes "get")).router.ServeHTTP r =
          some [Action.headerSet "Allow" p.2, Action.httpError "Method Not Allowed" 405]) :=
  verb_wrappers_register_own_method "/get" (writes "get")
    ((regexp.MustCompile ("^" ++ "/get" ++ "$")).regexp?.get (by decide))
    (regexp.Compiled.eq_ok_of_regexp? _ _ (Option.some_get _).symm)

end simplerouter

namespace simplerouter

/-- C12 as stated fails: the default bodies are not equal to the reason
phrases.  On a fresh recorder the default 404 body is `"Not Found\n"` and
the default 405 body is `"Method Not Allowed\n"`: `http.Error` writes the
message with a line feed after it. -/
theorem default_body_ends_with_newline :
    http.StatusText http.StatusNotFound = "Not Found" ∧
    http.StatusText http.StatusMethodNotAllowed = "Method Not Allowed" ∧
    (New.serve http.NewRecorder (NewRequest "GET" "/ops")).map (fun w => w.Body) =
      some "Not Found\n" ∧
    (New.serve http.NewRecorder (NewRequest "GET" "/ops")).map (fun w => w.Body) ≠
      some (http.StatusText http.StatusNotFound) ∧
    (opsRouter.serve http.NewRecorder (NewRequest "POST" "/ops")).map (fun w => w.Body) =
      some "Method Not Allowed\n" ∧
    (opsRouter.serve http.NewRecorder (NewRequest "POST" "/ops")).map (fun w => w.Body) ≠
      some (http.StatusText http.StatusMethodNotAllowed) := by
  refine ⟨by decide, by decide, by decide, by decide, by decide, by decide⟩

/-- C12, amended: when no custom handler is set, the body of the default 404
response is the reason phrase for 404 followed by a line feed,
`"Not Found\n"`, and the body of the default 405 response is the reason
phrase for 405 followed by a line feed, `"Method Not Allowed\n"`; each is
equal to its reason phrase once surrounding white space is trimmed, which is
how `check` of `router_test.go` compares. -/
theorem default_body_is_reason_phrase_line (router : Router) (r : Request)
    (w : http.ResponseWriter) (hw : w.wroteHeader = false) (hb : w.Body = "") :
    (router.NotFoundHandler = none → (∀ rt ∈ router.Routes, ¬ rt.matchesPath r.Path) →
      ∃ w1, router.serve w r = some w1 ∧
        w1.Body = http.StatusText http.StatusNotFound ++ "\n" ∧
        w1.Body = "Not Found\n" ∧ TrimSpace w1.Body = "Not Found" ∧
        check w1 http.StatusNotFound (http.StatusText http.StatusNotFound) = true) ∧
    (router.MethodNotAllowedHandler = none → (∃ rt ∈ router.Routes, rt.matchesPath r.Path) →
      (∀ rt ∈ router.Routes, rt.matchesPath r.Path → rt.method ≠ r.Method) →
      ∃ w1, router.serve w r = some w1 ∧
        w1.Body = http.StatusText http.StatusMethodNotAllowed ++ "\n" ∧
        w1.Body = "Method Not Allowed\n" ∧ TrimSpace w1.Body = "Method Not Allowed" ∧
        check w1 http.StatusMethodNotAllowed (http.StatusText http.StatusMethodNotAllowed) = true) := by
  constructor
  · intro hnone hno
    have hserve := ServeHTTP_of_no_path router r hno
    have hs := Error_spec w "Not Found" 404 hw
    have hbody : (http.Error w "Not Found" 404).Body = "Not Found\n" := by
      rw [hs.2.1, hb]
      decide
    refine ⟨http.Error w "Not Found" 404, ?_, ?_, hbody, ?_, ?_⟩
    · unfold Router.serve
      rw [hserve, hnone]
      rfl
    · rw [hbody]
      decide
    · rw [hbody]
      decide
    · unfold check
      rw [hbody, hs.1]
      decide
  · intro hnone hpath hmeth
    have hserve := ServeHTTP_of_wrong_method router r hpath hmeth
    have hs := Error_spec
      { w with header := w.header.Set "Allow" (", ".intercalate (router.allowed r.Path)) }
      "Method Not Allowed" 405 hw
    have hbody : (http.Error
        { w with header := w.header.Set "Allow" (", ".intercalate (router.allowed r.Path)) }
        "Method Not Allowed" 405).Body = "Method Not Allowed\n" := by
      rw [hs.2.1]
      simp only [hb]
      decide
    refine ⟨_, ?_, ?_, hbody, ?_, ?_⟩
    · unfold Router.serve
      rw [hserve, hnone]
      rfl
    · rw [hbody]
      decide
    · rw [hbody]
      decide
    · unfold check
      rw [hbody, hs.1]
      decide

theorem default_body_is_reason_phrase_line_witness :
    (New.NotFoundHandler = none → (∀ rt ∈ New.Routes, ¬ rt.matchesPath "/ops") →
      ∃ w1, New.serve http.NewRecorder (NewRequest "GET" "/ops") = some w1 ∧
        w1.Body = http.StatusText http.StatusNotFound ++ "\n" ∧
        w1.Body = "Not Found\n" ∧ TrimSpace w1.Body = "Not Found" ∧
        check w1 http.StatusNotFound (http.StatusText http.StatusNotFound) = true) ∧
    (opsRouter.MethodNotAllowedHandler = none ∧
      (∃ rt ∈ opsRouter.Routes, rt.matchesPath "/ops") ∧
      (∀ rt ∈ opsRouter.Routes, rt.matchesPath "/ops" → rt.method ≠ "POST") ∧
      ∃ w1, opsRouter.serve http.NewRecorder (NewRequest "POST" "/ops") = some w1 ∧
        w1.Body = http.StatusText http.StatusMethodNotAllowed ++ "\n" ∧
        w1.Body = "Method Not Allowed\n" ∧ TrimSpace w1.Body = "Method Not Allowed" ∧
        check w1 http.StatusMethodNotAllowed (http.StatusText http.StatusMethodNotAllowed) = true) :=
  have hpath : ∃ rt ∈ opsRouter.Routes, rt.matchesPath "/ops" :=
    (List.any_eq_true.mp (by decide :
      opsRouter.Routes.any (fun rt => decide (rt.matchesPath "/ops")) = true)).imp
      (fun _ hrt => ⟨hrt.1, of_decide_eq_true hrt.2⟩)
  have hmeth : ∀ rt ∈ opsRouter.Routes, rt.matchesPath "/ops" → rt.method ≠ "POST" :=
    fun rt hrt => of_decide_eq_true (List.all_eq_true.mp (by decide :
      opsRouter.Routes.all (fun rt => decide (rt.matchesPath "/ops" → rt.method ≠ "POST")) = true)
      rt hrt)
  ⟨(default_body_is_reason_phrase_line New (NewRequest "GET" "/ops") http.NewRecorder rfl rfl).1,
   rfl, hpath, hmeth,
   (default_body_is_reason_phrase_line opsRouter (NewRequest "POST" "/ops") http.NewRecorder
      rfl rfl).2 rfl hpath hmeth⟩

theorem foldl_touch_quiet (effect : Effect) (router : Router) :
    ∀ (actions : List Action),
      (∀ fn r, Action.call fn r ∈ actions → effect fn r router = router) →
      actions.foldl (fun rt a => a.touch effect rt) router = router := by
  intro actions
  induction actions with
  | nil => intro _; rfl
  | cons a rest ih =>
    intro h
    have hrest : ∀ fn r, Action.call fn r ∈ rest → effect fn r router = router :=
      fun fn r hmem => h fn r (List.mem_cons_of_mem _ hmem)
    rw [List.foldl_cons]
    cases a with
    | headerSet key value => exact ih hrest
    | httpError error code => exact ih hrest
    | call fn r =>
      have hq : effect fn r router = router := h fn r (List.mem_cons_self _ _)
      simp only [Action.touch, hq]
      exact ih hrest

/-- The router after a call of `ServeHTTP` whose handlers leave it alone. -/
theorem handle_of_quiet (effect : Effect) (router : Router) (w : http.ResponseWriter)
    (r : Request)
    (hquiet : ∀ actions, router.ServeHTTP r = some actions →
      ∀ fn r1, Action.call fn r1 ∈ actions → effect fn r1 router = router) :
    (router.handle effect w r).1 = router := by
  unfold Router.handle
  cases h : router.ServeHTTP r with
  | none => rfl
  | some actions => exact foldl_touch_quiet effect router actions (hquiet actions h)

/-- A handler that registers a route changes the router, and with it the
resolution of later requests: `GET /new` is resolved as 404 before
`GET /grow` is served and dispatched after. -/
theorem replay_growRouter :
    (growRouter.handle growEffect http.NewRecorder (NewRequest "GET" "/grow")).1.Routes.map
        (fun rt => rt.method) = ["GET", "GET", "GET"] ∧
    growRouter.Routes.map (fun rt => rt.method) = ["GET", "GET"] ∧
    growRouter.ServeHTTP (NewRequest "GET" "/new") =
      some [Action.httpError "Not Found" 404] ∧
    (growRouter.handle growEffect http.NewRecorder (NewRequest "GET" "/grow")).1.ServeHTTP
        (NewRequest "GET" "/new") =
      some [Action.call (writes "new") ((NewRequest "GET" "/new").withParams [])] := by
  refine ⟨by decide, by decide, rfl, rfl⟩

/-- C13: dispatch is idempotent.  The statements of `ServeHTTP` assign to no
field of the router, so the router after a call is what the handlers called
made of it.  When the request is resolved by a default response no handler
runs and the router is as it was.  When the handlers `ServeHTTP` calls for
the request do no registration (they leave the router as it is), the call
leaves `Routes`, `NotFoundHandler` and `MethodNotAllowedHandler` unchanged,
and a second dispatch of the same method and path, whatever its response
writer and the context of its request, reaches the same resolution as the
first: the same route with the same params, or the 405 resolution with the
same `Allow` list, or the 404 resolution; for the very same request the
actions of `ServeHTTP` are the same, and the router is again unchanged. -/
theorem dispatch_is_idempotent (effect : Effect) (router : Router)
    (w1 w2 : http.ResponseWriter) (r1 r2 : Request)
    (hm : r1.Method = r2.Method) (hp : r1.Path = r2.Path)
    (hquiet : ∀ actions, router.ServeHTTP r1 = some actions →
      ∀ fn r, Action.call fn r ∈ actions → effect fn r router = router) :
    (router.handle effect w1 r1).1.Routes = router.Routes ∧
    (router.handle effect w1 r1).1.NotFoundHandler = router.NotFoundHandler ∧
    (router.handle effect w1 r1).1.MethodNotAllowedHandler = router.MethodNotAllowedHandler ∧
    (router.handle effect w1 r1).1.resolve r2 = router.resolve r1 ∧
    (router.handle effect w1 r1).1.ServeHTTP r1 = router.ServeHTTP r1 ∧
    ((router.handle effect w1 r1).1.handle effect w2 r1).1 = router ∧
    (∀ (other : Effect) (w : http.ResponseWriter) (r : Request),
      router.firstServing r = none → router.NotFoundHandler = none →
      router.MethodNotAllowedHandler = none → (router.handle other w r).1 = router) := by
  have h1 : (router.handle effect w1 r1).1 = router := handle_of_quiet effect router w1 r1 hquiet
  rw [h1]
  refine ⟨rfl, rfl, rfl, ?_, rfl, handle_of_quiet effect router w2 r1 hquiet, ?_⟩
  · unfold Router.resolve
    rw [scan_congr r1 r2 hm hp]
  · intro other w r hfirst hnf hmna
    apply handle_of_quiet
    intro actions hserve fn r0 hmem
    exfalso
    have hnone : router.Routes.find? (fun x => decide (x.serves r)) = none := hfirst
    have hscan := scan_of_find_none r router.Routes [] hnone
    unfold Router.ServeHTTP at hserve
    rw [hscan, hnf, hmna] at hserve
    simp only [List.nil_append] at hserve
    split at hserve
    · simp only [Option.some.injEq] at hserve
      rw [← hserve] at hmem
      simp at hmem
    · simp only [Option.some.injEq] at hserve
      rw [← hserve] at hmem
      simp at hmem

theorem dispatch_is_idempotent_witness :
    (growRouter.handle growEffect http.NewRecorder (NewRequest "GET" "/get")).1.Routes =
      growRouter.Routes ∧
    (growRouter.handle growEffect http.NewRecorder (NewRequest "GET" "/get")).1.NotFoundHandler =
      growRouter.NotFoundHandler ∧
    (growRouter.handle growEffect http.NewRecorder
        (NewRequest "GET" "/get")).1.MethodNotAllowedHandler =
      growRouter.MethodNotAllowedHandler ∧
    (growRouter.handle growEffect http.NewRecorder (NewRequest "GET" "/get")).1.resolve
        ((NewRequest "GET" "/get").withParams [("seen", "before")]) =
      growRouter.resolve (NewRequest "GET" "/get") ∧
    (growRouter.handle growEffect http.NewRecorder (NewRequest "GET" "/get")).1.ServeHTTP
        (NewRequest "GET" "/get") =
      growRouter.ServeHTTP (NewRequest "GET" "/get") ∧
    ((growRouter.handle growEffect http.NewRecorder (NewRequest "GET" "/get")).1.handle
        growEffect (http.NewRecorder.Write "get") (NewRequest "GET" "/get")).1 = growRouter ∧
    (∀ (other : Effect) (w : http.ResponseWriter) (r : Request),
      growRouter.firstServing r = none → growRouter.NotFoundHandler = none →
      growRouter.MethodNotAllowedHandler = none → (growRouter.handle other w r).1 = growRouter) :=
  dispatch_is_idempotent growEffect growRouter http.NewRecorder (http.NewRecorder.Write "get")
    (NewRequest "GET" "/get") ((NewRequest "GET" "/get").withParams [("seen", "before")])
    rfl rfl
    (fun actions hserve fn r hmem => by
      have h0 : growRouter.ServeHTTP (NewRequest "GET" "/get") =
          some [Action.call (writes "get") ((NewRequest "GET" "/get").withParams [])] := rfl
      rw [h0] at hserve
      simp only [Option.some.injEq] at hserve
      rw [← hserve] at hmem
      simp only [List.mem_singleton, Action.call.injEq] at hmem
      rw [hmem.2]
      rfl)

end simplerouter

/-! ## Safety, the order of the 405 path, the frame of a dispatch -/

namespace simplerouter

theorem perform_total :
    ∀ (actions : List Action),
      (∀ fn r1, Action.call fn r1 ∈ actions → ∀ w1, (fn w1 r1).isSome = true) →
      ∀ w, (perform actions w).isSome = true := by
  intro actions
  induction actions with
  | nil => intro _ w; rfl
  | cons a rest ih =>
    intro h w
    have hrest : ∀ fn r1, Action.call fn r1 ∈ rest → ∀ w1, (fn w1 r1).isSome = true :=
      fun fn r1 hmem => h fn r1 (List.mem_cons_of_mem _ hmem)
    unfold perform
    cases a with
    | headerSet key value => exact ih hrest _
    | httpError error code => exact ih hrest _
    | call fn r1 =>
      have hfn := h fn r1 (List.mem_cons_self _ _) w
      simp only [Action.perform]
      cases hres : fn w r1 with
      | none => rw [hres] at hfn; exact absurd hfn (by simp)
      | some w2 => exact ih hrest w2

/-- C14: `ServeHTTP` itself never fails.  For every router and request, on
every route whose pattern matched, each index of `SubexpNames()` is in
bounds of `matches`; `ServeHTTP` resolves the request into exactly one of
three outcomes, told apart by the routes: one call of the handler of a route
when some route serves the request, the 405 resolution when the path matches
a pattern but no route serves the request, the 404 resolution when the path
matches no pattern; and provided the handler it calls does not fail, the
call of `ServeHTTP` completes. -/
theorem ServeHTTP_never_fails (router : Router) (r : Request) :
    (∀ rt ∈ router.Routes, rt.matchesPath r.Path →
      ∀ i, i < rt.regex.SubexpNames.length →
        ∃ s, (rt.regex.FindStringSubmatch r.Path)[i]? = some s) ∧
    ∃ actions, router.ServeHTTP r = some actions ∧
      (((∃ rt ∈ router.Routes, rt.serves r) ∧
          ∃ rt params, rt ∈ router.Routes ∧ actions = [Action.call rt.fn (r.withParams params)]) ∨
        ((¬ ∃ rt ∈ router.Routes, rt.serves r) ∧ (∃ rt ∈ router.Routes, rt.matchesPath r.Path) ∧
          actions = [Action.headerSet "Allow" (", ".intercalate (router.allowed r.Path)),
            match router.MethodNotAllowedHandler with
            | none => Action.httpError "Method Not Allowed" 405
            | some h => Action.call h r]) ∨
        ((∀ rt ∈ router.Routes, ¬ rt.matchesPath r.Path) ∧
          actions = [match router.NotFoundHandler with
            | none => Action.httpError "Not Found" 404
            | some h => Action.call h r])) ∧
      ((∀ fn r1, Action.call fn r1 ∈ actions → ∀ w1, (fn w1 r1).isSome = true) →
        ∀ w, (router.serve w r).isSome = true) := by
  constructor
  · intro rt _ hpath i hi
    have hne : rt.regex.FindStringSubmatch r.Path ≠ [] := by
      intro h0
      unfold route.matchesPath at hpath
      rw [h0] at hpath
      exact absurd hpath (by simp)
    rw [← rt.regex.length_eq r.Path hne] at hi
    exact ⟨_, List.getElem?_eq_getElem hi⟩
  · have hrun : ∀ actions, router.ServeHTTP r = some actions →
        (∀ fn r1, Action.call fn r1 ∈ actions → ∀ w1, (fn w1 r1).isSome = true) →
        ∀ w, (router.serve w r).isSome = true := by
      intro actions hserve hfn w
      unfold Router.serve
      rw [hserve]
      exact perform_total actions hfn w
    by_cases hs : ∃ rt ∈ router.Routes, rt.serves r
    · obtain ⟨rt, hfirst⟩ := firstServing_of_exists router r hs
      obtain ⟨_, _, params, _, hserve⟩ := ServeHTTP_of_firstServing router r rt hfirst
      have hmem : rt ∈ router.Routes := List.mem_of_find?_eq_some hfirst
      exact ⟨_, hserve, Or.inl ⟨hs, rt, params, hmem, rfl⟩, hrun _ hserve⟩
    · have hmeth : ∀ rt ∈ router.Routes, rt.matchesPath r.Path → rt.method ≠ r.Method :=
        fun rt hrt hp he => hs ⟨rt, hrt, hp, he⟩
      by_cases hp : ∃ rt ∈ router.Routes, rt.matchesPath r.Path
      · have hserve := ServeHTTP_of_wrong_method router r hp hmeth
        exact ⟨_, hserve, Or.inr (Or.inl ⟨hs, hp, rfl⟩), hrun _ hserve⟩
      · have hno : ∀ rt ∈ router.Routes, ¬ rt.matchesPath r.Path :=
          fun rt hrt hm => hp ⟨rt, hrt, hm⟩
        have hserve := ServeHTTP_of_no_path router r hno
        exact ⟨_, hserve, Or.inr (Or.inr ⟨hno, rfl⟩), hrun _ hserve⟩

end simplerouter

namespace simplerouter

/-- C15: on the 405 path the first action of `ServeHTTP` is to set the
header `Allow` to the methods of the routes whose pattern matches, in the
order collected, duplicates included, joined by `", "`, whether or not
`MethodNotAllowedHandler` is set; the handler, when set, is called after
that, on a response writer that already carries this `Allow` header. -/
theorem Allow_is_set_before_the_handler (router : Router) (r : Request)
    (hpath : ∃ rt ∈ router.Routes, rt.matchesPath r.Path)
    (hmeth : ∀ rt ∈ router.Routes, rt.matchesPath r.Path → rt.method ≠ r.Method) :
    ∃ second, router.ServeHTTP r = some
        [Action.headerSet "Allow" (", ".intercalate (router.allowed r.Path)), second] ∧
      (router.MethodNotAllowedHandler = none →
        second = Action.httpError "Method Not Allowed" 405) ∧
      (∀ h, router.MethodNotAllowedHandler = some h →
        second = Action.call h r ∧
        ∀ w : http.ResponseWriter, ∃ w1 : http.ResponseWriter,
          router.serve w r = h w1 r ∧
          w1.header.Get "Allow" = some (", ".intercalate (router.allowed r.Path)) ∧
          w1.wroteHeader = w.wroteHeader ∧ w1.Code = w.Code ∧ w1.Body = w.Body) := by
  have hserve := ServeHTTP_of_wrong_method router r hpath hmeth
  refine ⟨_, hserve, ?_, ?_⟩
  · intro hnone
    rw [hnone]
  · intro h hset
    refine ⟨by rw [hset], ?_⟩
    intro w
    refine ⟨{ w with header := w.header.Set "Allow" (", ".intercalate (router.allowed r.Path)) },
      ?_, header_get_set_self _ _ _, rfl, rfl, rfl⟩
    unfold Router.serve
    rw [hserve, hset]
    simp only [perform, Action.perform]
    cases h { w with header := w.header.Set "Allow" (", ".intercalate (router.allowed r.Path)) } r <;> rfl

theorem Allow_is_set_before_the_handler_witness :
    ∃ second, customMethodNotAllowedRouter.ServeHTTP (NewRequest "POST" "/ops") = some
        [Action.headerSet "Allow" "GET", second] ∧
      (customMethodNotAllowedRouter.MethodNotAllowedHandler = none →
        second = Action.httpError "Method Not Allowed" 405) ∧
      (∀ h, customMethodNotAllowedRouter.MethodNotAllowedHandler = some h →
        second = Action.call h (NewRequest "POST" "/ops") ∧
        ∀ w : http.ResponseWriter, ∃ w1 : http.ResponseWriter,
          customMethodNotAllowedRouter.serve w (NewRequest "POST" "/ops") =
            h w1 (NewRequest "POST" "/ops") ∧
          w1.header.Get "Allow" = some "GET" ∧
          w1.wroteHeader = w.wroteHeader ∧ w1.Code = w.Code ∧ w1.Body = w.Body) :=
  Allow_is_set_before_the_handler customMethodNotAllowedRouter (NewRequest "POST" "/ops")
    ((List.any_eq_true.mp (by decide :
      customMethodNotAllowedRouter.Routes.any (fun rt => decide (rt.matchesPath "/ops")) = true)).imp
      (fun _ hrt => ⟨hrt.1, of_decide_eq_true hrt.2⟩))
    (fun rt hrt => of_decide_eq_true (List.all_eq_true.mp (by decide :
      customMethodNotAllowedRouter.Routes.all
        (fun rt => decide (rt.matchesPath "/ops" → rt.method ≠ "POST")) = true) rt hrt))

/-- C16: when `ServeHTTP` dispatches a request to a route, the call of the
route's handler is its only action: it sets no header, `Allow` included, and
writes no status or body, whatever methods of earlier routes the loop had
accumulated in `allow` when it reached the route.  The handler receives the
response writer as `ServeHTTP` received it, and the response is what the
handler makes of it. -/
theorem dispatch_writes_nothing_itself (router : Router) (r : Request) (rt : route)
    (hdispatch : router.firstServing r = some rt) :
    ∃ (pre post : List route) (params : Params),
      router.Routes = pre ++ rt :: post ∧
      scan r pre [] = Scan.fallthrough
        ((pre.filter (fun x => decide (x.matchesPath r.Path))).map (fun x => x.method)) ∧
      (∀ allow, scan r (rt :: post) allow = Scan.dispatch rt params) ∧
      router.ServeHTTP r = some [Action.call rt.fn (r.withParams params)] ∧
      (∀ key value, Action.headerSet key value ∉ [Action.call rt.fn (r.withParams params)]) ∧
      (∀ error code, Action.httpError error code ∉ [Action.call rt.fn (r.withParams params)]) ∧
      ∀ w, router.serve w r = rt.fn w (r.withParams params) := by
  have hfind : router.Routes.find? (fun x => decide (x.serves r)) = some rt := hdispatch
  obtain ⟨_, pre, post, hsplit, hpre⟩ := List.find?_eq_some.mp hfind
  obtain ⟨hpath, hmethod, params, hfill, hserve⟩ := ServeHTTP_of_firstServing router r rt hdispatch
  refine ⟨pre, post, params, hsplit, ?_, ?_, hserve, ?_, ?_, ?_⟩
  · have hnone : pre.find? (fun x => decide (x.serves r)) = none := by
      rw [List.find?_eq_none]
      intro x hx hs
      have := hpre x hx
      simp [hs] at this
    have h := scan_of_find_none r pre [] hnone
    rw [List.nil_append] at h
    exact h
  · intro allow
    have hm : (rt.regex.FindStringSubmatch r.Path).length > 0 := hpath
    have he : ¬ (r.Method ≠ rt.method) := fun h => h hmethod.symm
    unfold scan
    simp only [hm, if_true, he, if_false, hfill]
  · intro key value hmem
    simp at hmem
  · intro error code hmem
    simp at hmem
  · intro w
    unfold Router.serve
    rw [hserve]
    simp only [perform, Action.perform]
    cases rt.fn w (r.withParams params) <;> rfl

theorem dispatch_writes_nothing_itself_witness :
    ∃ (pre post : List route) (params : Params),
      shadowRouter.Routes =
        pre ++ (shadowRouter.firstServing (NewRequest "GET" "/get")).get (by decide) :: post ∧
      scan (NewRequest "GET" "/get") pre [] = Scan.fallthrough
        ((pre.filter (fun x => decide (x.matchesPath "/get"))).map (fun x => x.method)) ∧
      (∀ allow, scan (NewRequest "GET" "/get")
        ((shadowRouter.firstServing (NewRequest "GET" "/get")).get (by decide) :: post) allow =
          Scan.dispatch ((shadowRouter.firstServing (NewRequest "GET" "/get")).get (by decide))
            params) ∧
      shadowRouter.ServeHTTP (NewRequest "GET" "/get") =
        some [Action.call (writes "first") ((NewRequest "GET" "/get").withParams params)] ∧
      (∀ key value, Action.headerSet key value ∉
        [Action.call (writes "first") ((NewRequest "GET" "/get").withParams params)]) ∧
      (∀ error code, Action.httpError error code ∉
        [Action.call (writes "first") ((NewRequest "GET" "/get").withParams params)]) ∧
      ∀ w, shadowRouter.serve w (NewRequest "GET" "/get") =
        writes "first" w ((NewRequest "GET" "/get").withParams params) :=
  dispatch_writes_nothing_itself shadowRouter (NewRequest "GET" "/get")
    ((shadowRouter.firstServing (NewRequest "GET" "/get")).get (by decide))
    (Option.some_get _).symm

end simplerouter

/-! ## Registration is monotone -/

namespace simplerouter

theorem resolve_after_add (router router1 : Router) (method pattern : String)
    (fn : HandlerFunc) (r : Request)
    (hadd : router.add method pattern fn = Outcome.ok router1) :
    ∃ x : route, x.method = method ∧ x.fn = fn ∧ router1.Routes = router.Routes ++ [x] ∧
      router1.NotFoundHandler = router.NotFoundHandler ∧
      router1.MethodNotAllowedHandler = router.MethodNotAllowedHandler ∧
      scan r router1.Routes [] =
        match scan r router.Routes [] with
        | .dispatch rt params => .dispatch rt params
        | .fallthrough a => scan r [x] a
        | .panic => .panic := by
  unfold Router.add at hadd
  cases hc : regexp.MustCompile ("^" ++ pattern ++ "$") with
  | error => rw [hc] at hadd; cases hadd
  | unsupported => rw [hc] at hadd; cases hadd
  | ok re =>
    rw [hc] at hadd
    simp only [Outcome.ok.injEq] at hadd
    subst hadd
    exact ⟨{ method := method, regex := re, fn := fn }, rfl, rfl, rfl, rfl, rfl,
      scan_append r _ router.Routes []⟩

/-- C17: registration is monotone.  If `ServeHTTP` dispatches a request to a
route with some params, then after one more successful `add` it dispatches
the request to the same route with the same params, by the same action; and
a request that was resolved as 405 is, after one more successful `add`,
either dispatched to the new route or still resolved as 405, with the new
method added to `Allow` when the new pattern matches the path: never as
404. -/
theorem registration_is_monotone (router router1 : Router) (method pattern : String)
    (fn : HandlerFunc) (r : Request)
    (hadd : router.add method pattern fn = Outcome.ok router1) :
    (∀ rt params, router.resolve r = some (Resolution.dispatched rt params) →
      router1.resolve r = some (Resolution.dispatched rt params) ∧
      router1.ServeHTTP r = router.ServeHTTP r ∧
      router1.ServeHTTP r = some [Action.call rt.fn (r.withParams params)]) ∧
    (∀ allow, router.resolve r = some (Resolution.methodNotAllowed allow) →
      router1.resolve r ≠ some Resolution.notFound ∧
      ((∃ x params, x.method = method ∧ x.fn = fn ∧
          router1.resolve r = some (Resolution.dispatched x params)) ∨
        router1.resolve r = some (Resolution.methodNotAllowed (allow ++ [method])) ∨
        router1.resolve r = some (Resolution.methodNotAllowed allow))) := by
  obtain ⟨x, hxm, hxf, _, _, _, hscan⟩ := resolve_after_add router router1 method pattern fn r hadd
  constructor
  · intro rt params hres
    have hold : scan r router.Routes [] = Scan.dispatch rt params := by
      unfold Router.resolve at hres
      cases hsc : scan r router.Routes [] with
      | dispatch rt1 params1 =>
        rw [hsc] at hres
        simp only [Option.some.injEq, Resolution.dispatched.injEq] at hres
        rw [hres.1, hres.2]
      | fallthrough a =>
        rw [hsc] at hres
        simp only at hres
        split at hres <;> cases hres
      | panic => rw [hsc] at hres; cases hres
    have hnew : scan r router1.Routes [] = Scan.dispatch rt params := by
      rw [hscan, hold]
    refine ⟨?_, ?_, ?_⟩
    · unfold Router.resolve
      rw [hnew]
    · unfold Router.ServeHTTP
      rw [hnew, hold]
    · unfold Router.ServeHTTP
      rw [hnew]
      rfl
  · intro allow hres
    have hold : scan r router.Routes [] = Scan.fallthrough allow ∧ allow.length > 0 := by
      unfold Router.resolve at hres
      cases hsc : scan r router.Routes [] with
      | dispatch rt1 params1 => rw [hsc] at hres; cases hres
      | fallthrough a =>
        rw [hsc] at hres
        simp only at hres
        split at hres
        · rename_i hpos
          simp only [Option.some.injEq, Resolution.methodNotAllowed.injEq] at hres
          subst hres
          exact ⟨rfl, hpos⟩
        · cases hres
      | panic => rw [hsc] at hres; cases hres
    have hnew : scan r router1.Routes [] = scan r [x] allow := by
      rw [hscan, hold.1]
    by_cases hm : (x.regex.FindStringSubmatch r.Path).length > 0
    · by_cases hne : r.Method ≠ x.method
      · have hx : scan r [x] allow = Scan.fallthrough (allow ++ [x.method]) := by
          simp only [scan, hm, if_true, hne, ne_eq, not_false_eq_true]
        have hr : router1.resolve r = some (Resolution.methodNotAllowed (allow ++ [method])) := by
          unfold Router.resolve
          rw [hnew, hx, hxm]
          simp
        exact ⟨by rw [hr]; simp, Or.inr (Or.inl hr)⟩
      · obtain ⟨params, hfill⟩ := fill_names_total x r.Path hm
        have hx : scan r [x] allow = Scan.dispatch x params := by
          simp only [scan, hm, if_true, hne, if_false, hfill]
        have hr : router1.resolve r = some (Resolution.dispatched x params) := by
          unfold Router.resolve
          rw [hnew, hx]
        exact ⟨by rw [hr]; simp, Or.inl ⟨x, params, hxm, hxf, hr⟩⟩
    · have hx : scan r [x] allow = Scan.fallthrough allow := by
        simp only [scan, hm, if_false]
      have hr : router1.resolve r = some (Resolution.methodNotAllowed allow) := by
        unfold Router.resolve
        rw [hnew, hx]
        simp [hold.2]
      exact ⟨by rw [hr]; simp, Or.inr (Or.inr hr)⟩

theorem registration_is_monotone_witness :
    opsRouter.add "POST" "/ops" (writes "posted") =
      Outcome.ok (opsRouter.add "POST" "/ops" (writes "posted")).router ∧
    ((opsRouter.add "POST" "/ops" (writes "posted")).router.resolve (NewRequest "GET" "/ops") =
        some (Resolution.dispatched
          ((opsRouter.firstServing (NewRequest "GET" "/ops")).get (by decide)) []) ∧
      (opsRouter.add "POST" "/ops" (writes "posted")).router.ServeHTTP (NewRequest "GET" "/ops") =
        opsRouter.ServeHTTP (NewRequest "GET" "/ops") ∧
      (opsRouter.add "POST" "/ops" (writes "posted")).router.ServeHTTP (NewRequest "GET" "/ops") =
        some [Action.call (writes "ops") ((NewRequest "GET" "/ops").withParams [])]) ∧
    ((opsRouter.add "POST" "/ops" (writes "posted")).router.resolve (NewRequest "POST" "/ops") ≠
        some Resolution.notFound ∧
      ((∃ x params, x.method = "POST" ∧ x.fn = writes "posted" ∧
          (opsRouter.add "POST" "/ops" (writes "posted")).router.resolve
            (NewRequest "POST" "/ops") = some (Resolution.dispatched x params)) ∨
        (opsRouter.add "POST" "/ops" (writes "posted")).router.resolve (NewRequest "POST" "/ops") =
          some (Resolution.methodNotAllowed (["GET"] ++ ["POST"])) ∨
        (opsRouter.add "POST" "/ops" (writes "posted")).router.resolve (NewRequest "POST" "/ops") =
          some (Resolution.methodNotAllowed ["GET"]))) :=
  ⟨rfl,
   (registration_is_monotone opsRouter (opsRouter.add "POST" "/ops" (writes "posted")).router
      "POST" "/ops" (writes "posted") (NewRequest "GET" "/ops") rfl).1
      ((opsRouter.firstServing (NewRequest "GET" "/ops")).get (by decide)) [] rfl,
   (registration_is_monotone opsRouter (opsRouter.add "POST" "/ops" (writes "posted")).router
      "POST" "/ops" (writes "posted") (NewRequest "POST" "/ops") rfl).2 ["GET"] rfl⟩

end simplerouter

/-! ## The keys of `params`, and groups that share a name -/

namespace simplerouter

theorem Params.lookup_of_mem_keys (params : Params) (k : String) (h : k ∈ params.keys) :
    ∃ v, params.lookup k = some v := by
  induction params with
  | nil => simp [Params.keys] at h
  | cons kv rest ih =>
    obtain ⟨k1, v1⟩ := kv
    by_cases hk : k = k1
    · subst hk
      exact ⟨v1, by simp [List.lookup]⟩
    · have hmem : k ∈ Params.keys rest := by
        unfold Params.keys at h ⊢
        rw [List.map_cons, List.mem_cons] at h
        rcases h with h | h
        · exact absurd h hk
        · exact h
      obtain ⟨v, hv⟩ := ih hmem
      refine ⟨v, ?_⟩
      rw [List.lookup_cons]
      have hb : (k == k1) = false := by simpa using hk
      rw [hb]
      exact hv

/-- What the loop of lines 86-92 leaves in `params`, for the route a request
is dispatched to: one entry for each name of a named group, holding the text
of the last group of that name. -/
theorem params_of_dispatch (router : Router) (r : Request) (rt : route)
    (hdispatch : router.firstServing r = some rt) :
    ∃ params, router.ServeHTTP r = some [Action.call rt.fn (r.withParams params)] ∧
      params.keys.Nodup ∧
      (∀ k, k ∈ params.keys ↔ ∃ i, 0 < i ∧ rt.regex.SubexpNames[i]? = some k ∧ k ≠ "") ∧
      ∀ i name, 0 < i → rt.regex.SubexpNames[i]? = some name → name ≠ "" →
        (∀ j, rt.regex.SubexpNames[j]? = some name → j ≤ i) →
        ∃ s, (rt.regex.FindStringSubmatch r.Path)[i]? = some s ∧
          params.lookup name = some s := by
  obtain ⟨_, _, params, hfill, hserve⟩ := ServeHTTP_of_firstServing router r rt hdispatch
  refine ⟨params, hserve, ?_, ?_, ?_⟩
  · exact fill_keys_nodup _ _ [] params (by simp [Params.keys]) hfill
  · intro k
    rw [← mem_namedGroups]
    constructor
    · intro hk
      rcases fill_keys _ _ [] params hfill k hk with h | h
      · simp [Params.keys] at h
      · exact h
    · intro hk
      exact fill_keys_of_assigned _ _ [] params hfill k (Or.inr hk)
  · intro i name hi hget hname hlast
    exact fill_lookup_last _ _ [] params (enum_pairwise _) hfill i name
      (List.mk_mem_enum_iff_getElem?.mpr hget) (Nat.pos_iff_ne_zero.mp hi) hname
      (fun j hj => hlast j (List.mk_mem_enum_iff_getElem?.mp hj))

/-- C18 as stated fails when a later group has the same name.  The route
`/(?P<x>a)?(?P<x>b)` has two groups named `x`; on the path `/b` the first
takes no part in the match, and `GetParam` returns `("b", true)` for its
name, the text of the second group, not `("", true)`. -/
theorem unmatched_group_entry_is_overwritten :
    overwrittenRouter.Routes.map
        (fun rt => (rt.regex.SubexpNames, rt.regex.FindStringSubmatch "/b")) =
      [(["", "x", "x"], ["/b", "", "b"])] ∧
    overwrittenRouter.ServeHTTP (NewRequest "GET" "/b") =
      some [Action.call (writes "overwritten") ((NewRequest "GET" "/b").withParams [("x", "b")])] ∧
    GetParam ((NewRequest "GET" "/b").withParams [("x", "b")]) "x" = some ("b", true) ∧
    GetParam ((NewRequest "GET" "/b").withParams [("x", "b")]) "x" ≠ some ("", true) := by
  refine ⟨by decide, rfl, by decide, by decide⟩

/-- C18, amended: when `ServeHTTP` dispatches a request to a route, the keys
of the params handed to the handler are exactly the non-empty names of the
capture groups of the route's pattern, whatever the path: a named group has
an entry also when it matched the empty string or took no part in the match,
and `GetParam` finds every such name.  For a group of text `""` that is the
last of its name `GetParam` returns `("", true)`. -/
theorem keys_are_exactly_the_named_groups (router : Router) (r : Request) (rt : route)
    (hdispatch : router.firstServing r = some rt) :
    ∃ params, router.ServeHTTP r = some [Action.call rt.fn (r.withParams params)] ∧
      (∀ k, k ∈ params.keys ↔ ∃ i, 0 < i ∧ rt.regex.SubexpNames[i]? = some k ∧ k ≠ "") ∧
      (∀ i name, 0 < i → rt.regex.SubexpNames[i]? = some name → name ≠ "" →
        ∃ v, GetParam (r.withParams params) name = some (v, true)) ∧
      (∀ i name, 0 < i → rt.regex.SubexpNames[i]? = some name → name ≠ "" →
        (∀ j, rt.regex.SubexpNames[j]? = some name → j ≤ i) →
        (rt.regex.FindStringSubmatch r.Path)[i]? = some "" →
        GetParam (r.withParams params) name = some ("", true)) := by
  obtain ⟨params, hserve, _, hkeys, hlast⟩ := params_of_dispatch router r rt hdispatch
  refine ⟨params, hserve, hkeys, ?_, ?_⟩
  · intro i name hi hget hname
    obtain ⟨v, hv⟩ := Params.lookup_of_mem_keys params name ((hkeys name).mpr ⟨i, hi, hget, hname⟩)
    exact ⟨v, by rw [GetParam_withParams, hv]⟩
  · intro i name hi hget hname hl hempty
    obtain ⟨s, hs, hlookup⟩ := hlast i name hi hget hname hl
    rw [hempty] at hs
    rw [GetParam_withParams, hlookup, ← Option.some.inj hs]

theorem keys_are_exactly_the_named_groups_witness :
    ∃ params, optionalRouter.ServeHTTP (NewRequest "GET" "/a") =
        some [Action.call (writes "optional") ((NewRequest "GET" "/a").withParams params)] ∧
      (∀ k, k ∈ params.keys ↔ ∃ i, 0 < i ∧ ["", "x"][i]? = some k ∧ k ≠ "") ∧
      (∀ i name, 0 < i → ["", "x"][i]? = some name → name ≠ "" →
        ∃ v, GetParam ((NewRequest "GET" "/a").withParams params) name = some (v, true)) ∧
      (∀ i name, 0 < i → ["", "x"][i]? = some name → name ≠ "" →
        (∀ j, ["", "x"][j]? = some name → j ≤ i) →
        ["/a", ""][i]? = some "" →
        GetParam ((NewRequest "GET" "/a").withParams params) name = some ("", true)) :=
  keys_are_exactly_the_named_groups optionalRouter (NewRequest "GET" "/a")
    ((optionalRouter.firstServing (NewRequest "GET" "/a")).get (by decide))
    (Option.some_get _).symm

/-- C19: when several capture groups of the dispatched route's pattern have
the same name, the params handed to the handler hold a single entry for that
name, and its value is the text of the last group of that name, the one of
highest index: `GetParam` returns that text, the texts of the earlier groups
of the name are overwritten. -/
theorem last_group_of_a_name_wins (router : Router) (r : Request) (rt : route)
    (hdispatch : router.firstServing r = some rt) :
    ∃ params, router.ServeHTTP r = some [Action.call rt.fn (r.withParams params)] ∧
      params.keys.Nodup ∧
      ∀ i name, 0 < i → rt.regex.SubexpNames[i]? = some name → name ≠ "" →
        (∀ j, rt.regex.SubexpNames[j]? = some name → j ≤ i) →
        params.keys.count name = 1 ∧
        ∃ s, (rt.regex.FindStringSubmatch r.Path)[i]? = some s ∧
          GetParam (r.withParams params) name = some (s, true) := by
  obtain ⟨params, hserve, hnd, hkeys, hlast⟩ := params_of_dispatch router r rt hdispatch
  refine ⟨params, hserve, hnd, ?_⟩
  intro i name hi hget hname hl
  obtain ⟨s, hs, hlookup⟩ := hlast i name hi hget hname hl
  refine ⟨List.count_eq_one_of_mem hnd ((hkeys name).mpr ⟨i, hi, hget, hname⟩), s, hs, ?_⟩
  rw [GetParam_withParams, hlookup]

theorem last_group_of_a_name_wins_witness :
    ∃ params, duplicateRouter.ServeHTTP (NewRequest "GET" "/ab") =
        some [Action.call (writes "duplicate") ((NewRequest "GET" "/ab").withParams params)] ∧
      params.keys.Nodup ∧
      ∀ i name, 0 < i → ["", "x", "x"][i]? = some name → name ≠ "" →
        (∀ j, ["", "x", "x"][j]? = some name → j ≤ i) →
        params.keys.count name = 1 ∧
        ∃ s, ["/ab", "a", "b"][i]? = some s ∧
          GetParam ((NewRequest "GET" "/ab").withParams params) name = some (s, true) :=
  last_group_of_a_name_wins duplicateRouter (NewRequest "GET" "/ab")
    ((duplicateRouter.firstServing (NewRequest "GET" "/ab")).get (by decide))
    (Option.some_get _).symm

theorem replay_duplicateRouter :
    duplicateRouter.ServeHTTP (NewRequest "GET" "/ab") =
      some [Action.call (writes "duplicate") ((NewRequest "GET" "/ab").withParams [("x", "b")])] ∧
    GetParam ((NewRequest "GET" "/ab").withParams [("x", "b")]) "x" = some ("b", true) := by
  refine ⟨rfl, by decide⟩

theorem replay_optionalRouter :
    optionalRouter.ServeHTTP (NewRequest "GET" "/a") =
      some [Action.call (writes "optional") ((NewRequest "GET" "/a").withParams [("x", "")])] ∧
    GetParam ((NewRequest "GET" "/a").withParams [("x", "")]) "x" = some ("", true) := by
  refine ⟨rfl, by decide⟩

end simplerouter
